import Mathlib

/-!
# xtws-go: session lifecycle and subscription replay

A shallow embedding of `client.go`, `channel.go`, `model.go` and `constant.go`.

* A `*SubscribeOptions` is an index into `WsService.heap`; `none` is the nil pointer.
  The registry stores these pointers, exactly as `requestHistory.op` does.
* `sync.Map` is an association list. The order in which `Range` visits the entries is
  not fixed by Go: it is a function `visit` on the registry, and the properties ask only
  that it visits every entry once (`visit reg` is a permutation of `reg`).
* The socket is an oracle `wr : Nat → Bool`: the outcome of the n-th `WriteMessage`
  of the session. Dialling is an oracle `dial : Nat → DialResult`: the outcome of the
  n-th attempt of one dial episode (the new connection, or the error).
* An inbound message is a list of bytes; an outbound frame is the string that
  `json.Marshal` yields. A `time.Duration` is an `Int` wrapped to 64 bits.
* Every operation appends what it does to `WsService.trace`.
* Logging and printing are left out.
-/

namespace Xtws

/-! ## constant.go -/

def BaseUrl : String := "wss://stream.xt.com/public"

/-- The constant `math.MaxInt64`. -/
def MaxRetryConn : Int := 9223372036854775807

def Subscribe : String := "subscribe"

def UnSubscribe : String := "unsubscribe"

def DefaultPingInterval : String := "10s"

def ChannelSpotLogin : String := "spot.login"

def ChannelFutureLogin : String := "futures.login"

/-- The table `authChannel` of constant.go: every entry of the map literal is commented
out, so a lookup yields false for every channel. The operations below take the table as
an argument. -/
def authChannel : String → Bool := fun _ => false

/-! ## model.go -/

/-- The type `status` of client.go. -/
inductive status where
  | disconnected
  | connected
  | reconnecting
deriving DecidableEq, Repr

structure SubscribeOptions where
  ID : String
  IsReConnect : Bool
deriving DecidableEq, Repr

/-- An entry of the registry; `op` is the stored `*SubscribeOptions`. -/
structure requestHistory where
  Channel : String
  Method : String
  op : Option Nat
deriving DecidableEq, Repr

structure Request where
  Id : String
  Method : String
  Params : List String
deriving DecidableEq, Repr

structure UpdateMsg where
  Topic : String
  Event : String
deriving DecidableEq, Repr

structure APIReq where
  ApiKey : String
  Signature : String
  Timestamp : String
  ReqId : String
  ReqHeader : String
  ReqParam : String
deriving DecidableEq, Repr

/-- A Go value of type `any` as far as `generateAPIRequest` inspects it: a string, or
something else. -/
inductive GoAny where
  | str (s : String)
  | other
deriving DecidableEq, Repr

/-- What a call returns: nil, an error, or a run-time panic. -/
inductive Res where
  | ok
  | err (msg : String)
  | panicked
deriving DecidableEq, Repr

/-- The error of `newAuthEmptyErr`. -/
def newAuthEmptyErr : Res := Res.err "auth key or secret empty"

/-- The error a failed `WriteMessage` returns (its text comes from the socket library). -/
def writeErr : Res := Res.err "write failed"

/-- What an operation does, in order. `command` and `loginCall` mark the entry into
`baseSubscribe` (with its arguments, the options dereferenced) and into `login`;
`invoke` is the call of a handler with the bytes of an inbound message. -/
inductive Event where
  | muLock
  | muUnlock
  | write (frame : String) (ok : Bool)
  | clientMuLock
  | clientMuUnlock
  | closeConn
  | dial (ok : Bool)
  | sleep (ns : Int)
  | setStatus (s : status)
  | command (method : String) (channels : List String) (op : Option SubscribeOptions)
  | loginCall
  | invoke (handler : Nat) (payload : List UInt8)
deriving DecidableEq, Repr

/-- The bytes of a string of ASCII characters. -/
def asciiBytes (s : String) : List UInt8 :=
  s.data.map fun c => c.toNat.toUInt8

/-! ## JSON encoding of the outbound frames (`encoding/json`) -/

def hexDigit (n : Nat) : Char :=
  if n < 10 then Char.ofNat (48 + n) else Char.ofNat (87 + n)

/-- The escape `\u00XX` of a character below U+0100. -/
def jsonUnicodeEscape (c : Char) : List Char :=
  [Char.ofNat 92, Char.ofNat 117, Char.ofNat 48, Char.ofNat 48,
    hexDigit (c.toNat / 16), hexDigit (c.toNat % 16)]

/-- How `json.Marshal` writes one character of a string: the quote and the backslash are
escaped, so are the control characters (the line feed, carriage return and tab by
letter), and, as HTML escaping is on, the characters `<`, `>`, `&`, U+2028 and U+2029. -/
def jsonEscapeChar (c : Char) : List Char :=
  if c.toNat = 34 then [Char.ofNat 92, Char.ofNat 34]
  else if c.toNat = 92 then [Char.ofNat 92, Char.ofNat 92]
  else if c.toNat = 10 then [Char.ofNat 92, Char.ofNat 110]
  else if c.toNat = 13 then [Char.ofNat 92, Char.ofNat 114]
  else if c.toNat = 9 then [Char.ofNat 92, Char.ofNat 116]
  else if c.toNat < 32 ∨ c.toNat = 60 ∨ c.toNat = 62 ∨ c.toNat = 38 then jsonUnicodeEscape c
  else if c.toNat = 8232 then
    [Char.ofNat 92, Char.ofNat 117, Char.ofNat 50, Char.ofNat 48, Char.ofNat 50, Char.ofNat 56]
  else if c.toNat = 8233 then
    [Char.ofNat 92, Char.ofNat 117, Char.ofNat 50, Char.ofNat 48, Char.ofNat 50, Char.ofNat 57]
  else [c]

/-- A string as `json.Marshal` writes it. -/
def jsonString (s : String) : String :=
  String.mk (Char.ofNat 34 :: (s.data.flatMap jsonEscapeChar ++ [Char.ofNat 34]))

/-- The members of a JSON array, comma separated. -/
def jsonJoin : List String → String
  | [] => ""
  | [x] => x
  | x :: y :: rest => x ++ "," ++ jsonJoin (y :: rest)

/-- The bytes `json.Marshal(req)` yields for a `Request`: `id` is left out when empty
(`omitempty`), then `method`, then `params`. A nil slice of channels is not told apart
from an empty one. -/
def marshalRequest (req : Request) : String :=
  "\x7b" ++ (if req.Id = "" then "" else "\"id\":" ++ jsonString req.Id ++ ",")
    ++ "\"method\":" ++ jsonString req.Method
    ++ ",\"params\":[" ++ jsonJoin (req.Params.map jsonString) ++ "]\x7d"

/-- The bytes `json.Marshal` yields for an `APIReq`; the header and the parameters are
raw JSON and are copied as they are. -/
def marshalAPIReq (r : APIReq) : String :=
  "\x7b\"api_key\":" ++ jsonString r.ApiKey
    ++ ",\"signature\":" ++ jsonString r.Signature
    ++ ",\"timestamp\":" ++ jsonString r.Timestamp
    ++ ",\"req_id\":" ++ jsonString r.ReqId
    ++ ",\"req_header\":" ++ r.ReqHeader
    ++ ",\"req_param\":" ++ r.ReqParam ++ "\x7d"

/-! ## The session -/

/-- The type of `ConnConf.subscribeMsg` once initialised: channel to recorded requests. -/
abbrev Registry := List (String × List requestHistory)

structure ConnConf where
  App : String
  subscribeMsg : Option Registry
  URL : String
  Key : String
  Secret : String
  MaxRetryConn : Int
  SkipTlsVerify : Bool
  ShowReconnectMsg : Bool
  PingInterval : String
deriving DecidableEq, Repr

structure ConfOptions where
  App : String
  URL : String
  Key : String
  Secret : String
  MaxRetryConn : Int
  SkipTlsVerify : Bool
  ShowReconnectMsg : Bool
  PingInterval : String
deriving DecidableEq, Repr

/-- The session. `once` and `loginOnce` say whether the `sync.Once` has fired; `calls`
maps a channel to its handler (a handler is a number); `heap` holds the
`SubscribeOptions` objects that pointers refer to; `writes` counts the `WriteMessage`
calls made so far. -/
structure WsService where
  Client : Option Nat
  once : Bool
  loginOnce : Bool
  calls : List (String × Nat)
  conf : ConnConf
  status : Xtws.status
  heap : List SubscribeOptions
  writes : Nat
  trace : List Event
deriving DecidableEq, Repr

/-- The method `sync.Map.Load`. -/
def Load {β : Type} : List (String × β) → String → Option β
  | [], _ => none
  | (k, v) :: rest, key => if k = key then some v else Load rest key

/-- The method `sync.Map.Store`: replaces the value of a present key, adds an absent one. -/
def Store {β : Type} : List (String × β) → String → β → List (String × β)
  | [], key, v => [(key, v)]
  | (k, w) :: rest, key, v => if k = key then (k, v) :: rest else (k, w) :: Store rest key v

/-- The function `strings.HasSuffix`. -/
def HasSuffix (s suffix : String) : Bool := suffix.data.isSuffixOf s.data

/-- The object a pointer refers to. Go has no dangling pointers; an index outside the
heap reads as the zero value. -/
def deref (heap : List SubscribeOptions) (p : Nat) : SubscribeOptions :=
  heap.getD p ⟨"", false⟩

/-- The test `op != nil && op.IsReConnect`. -/
def isReConnect (heap : List SubscribeOptions) (op : Option Nat) : Bool :=
  match op with
  | some p => (deref heap p).IsReConnect
  | none => false

def WsService.emit (ws : WsService) (e : Event) : WsService :=
  { ws with trace := ws.trace ++ [e] }

/-- The call `ws.Client.WriteMessage(websocket.TextMessage, frame)`. -/
def WsService.WriteMessage (wr : Nat → Bool) (frame : String) (ws : WsService) :
    Bool × WsService :=
  (wr ws.writes,
    { ws with writes := ws.writes + 1, trace := ws.trace ++ [Event.write frame (wr ws.writes)] })

/-! ## channel.go -/

/-- The loop of `baseSubscribe` over `channels` (lines 112 to 137). `isRe` is
`op != nil && op.IsReConnect`. Both `return nil` statements leave the loop. -/
def recordLoop (method : String) (op : Option Nat) (isRe : Bool) :
    List String → Registry → Registry
  | [], reg => reg
  | channel :: rest, reg =>
    match Load reg channel with
    | some reqs =>
      if isRe then reg
      else recordLoop method op isRe rest (Store reg channel (reqs ++ [⟨channel, method, op⟩]))
    | none =>
      if HasSuffix channel ".ping" || HasSuffix channel ".time" then reg
      else recordLoop method op isRe rest (Store reg channel [⟨channel, method, op⟩])

/-- The method `baseSubscribe`. With a nil registry the first `Load` panics; the deferred
unlock still runs. -/
def WsService.baseSubscribe (wr : Nat → Bool) (method : String) (channels : List String)
    (op : Option Nat) (ws : WsService) : Res × WsService :=
  let req : Request :=
    { Id := match op with
        | some p => (deref ws.heap p).ID
        | none => "",
      Method := method, Params := channels }
  let byteReq := marshalRequest req
  let ws1 := (ws.emit (Event.command method channels (op.map (deref ws.heap)))).emit Event.muLock
  let w := ws1.WriteMessage wr byteReq
  if w.1 = false then (writeErr, w.2.emit Event.muUnlock)
  else
    match w.2.conf.subscribeMsg with
    | none =>
      if channels = [] then (Res.ok, w.2.emit Event.muUnlock)
      else (Res.panicked, w.2.emit Event.muUnlock)
    | some reg =>
      (Res.ok,
        WsService.emit { w.2 with conf := { w.2.conf with
          subscribeMsg := some (recordLoop method op (isReConnect ws.heap op) channels reg) } }
          Event.muUnlock)

def WsService.newBaseChannel (wr : Nat → Bool) (channels : List String) (op : Option Nat)
    (ws : WsService) : Res × WsService :=
  ws.baseSubscribe wr Xtws.Subscribe channels op

/-- The method `Subscribe`; `auth` is the table `authChannel`. -/
def WsService.Subscribe (auth : String → Bool) (wr : Nat → Bool) (channels : List String)
    (ws : WsService) : Res × WsService :=
  if channels.any (fun channel => (ws.conf.Key = "" || ws.conf.Secret = "") && auth channel)
  then (newAuthEmptyErr, ws)
  else ws.newBaseChannel wr channels none

def WsService.SubscribeWithOption (auth : String → Bool) (wr : Nat → Bool)
    (channels : List String) (op : Option Nat) (ws : WsService) : Res × WsService :=
  if channels.any (fun channel => (ws.conf.Key = "" || ws.conf.Secret = "") && auth channel)
  then (newAuthEmptyErr, ws)
  else ws.newBaseChannel wr channels op

def WsService.UnSubscribe (wr : Nat → Bool) (channels : List String) (ws : WsService) :
    Res × WsService :=
  ws.baseSubscribe wr Xtws.UnSubscribe channels none

/-- The function type `CallBack` is a handler number; a nil handler is not stored. -/
def WsService.SetCallBack (channel : String) (call : Option Nat) (ws : WsService) :
    WsService :=
  match call with
  | none => ws
  | some c => { ws with calls := Store ws.calls channel c }

/-- The call `ws.readMsg()`: the `sync.Once` lets the reader goroutine start once. -/
def WsService.readMsg (ws : WsService) : WsService :=
  { ws with once := true }

def WsService.apiRequest (wr : Nat → Bool) (channel : String)
    (_keyVals : List (String × GoAny)) (ws : WsService) : Res × WsService :=
  let req : Request := { Id := "", Method := channel, Params := [channel] }
  let byteReq := marshalRequest req
  let w := (ws.emit Event.muLock).WriteMessage wr byteReq
  (if w.1 = true then Res.ok else writeErr, w.2.emit Event.muUnlock)

def WsService.login (wr : Nat → Bool) (ws : WsService) : Res × WsService :=
  let ws0 := ws.emit Event.loginCall
  if ws.conf.Key = "" ∨ ws.conf.Secret = "" then (newAuthEmptyErr, ws0)
  else
    let channel := if ws.conf.App = "futures" then ChannelFutureLogin else ChannelSpotLogin
    ws0.readMsg.apiRequest wr channel []

/-- The method `APIRequest`; `auth` is the table `authChannel`. The `loginOnce` fires on
the first call whatever `login` returns. -/
def WsService.APIRequest (auth : String → Bool) (wr : Nat → Bool) (channel : String)
    (keyVals : List (String × GoAny)) (ws : WsService) : Res × WsService :=
  let r := if ws.loginOnce = true then (Res.ok, ws)
    else WsService.login wr { ws with loginOnce := true }
  if r.1 ≠ Res.ok then r
  else if (r.2.conf.Key = "" || r.2.conf.Secret = "") && auth channel then
    (newAuthEmptyErr, r.2)
  else r.2.readMsg.apiRequest wr channel keyVals

/-- The function `calculateSignature`; `hmacSha512Hex secret message` is the lowercase hex
of the HMAC-SHA512 of the message under the secret (`crypto/hmac`, `crypto/sha512`,
`encoding/hex`). -/
def calculateSignature (hmacSha512Hex : String → String → String)
    (secret message : String) : String :=
  hmacSha512Hex secret message

/-- The method `generateAPIRequest`; `marshalParam` is `json.Marshal` on the parameters
and `now` is `time.Now().Unix()`. No function of the package calls it. -/
def WsService.generateAPIRequest {α : Type} (hmacSha512Hex : String → String → String)
    (marshalParam : α → String) (now : Int) (ws : WsService) (channel : String)
    (placeParam : α) (keyVals : List (String × GoAny)) : APIReq :=
  let reqID := match Load keyVals "req_id" with
    | some (GoAny.str s) => s
    | some GoAny.other => ""
    | none => "req_id"
  let gateChannelID := match Load keyVals "X-Gate-Channel-Id" with
    | some (GoAny.str s) => s
    | some GoAny.other => ""
    | none => "T_channel_id"
  let reqParam := marshalParam placeParam
  let message := "api\n" ++ channel ++ "\n" ++ reqParam ++ "\n" ++ toString now
  { ApiKey := ws.conf.Key,
    Signature := calculateSignature hmacSha512Hex ws.conf.Secret message,
    Timestamp := toString now,
    ReqId := reqID,
    ReqHeader := "\x7b\"X-Gate-Channel-Id\":\"" ++ gateChannelID ++ "\"\x7d",
    ReqParam := reqParam }

/-! ## client.go -/

/-- A 64-bit signed integer after an overflowing operation. -/
def wrapInt64 (x : Int) : Int := (x + 2 ^ 63) % 2 ^ 64 - 2 ^ 63

/-- The argument of `time.Sleep`, `time.Millisecond * (time.Duration(retry) * 500)`: a
`time.Duration`, that is an int64 count of nanoseconds. -/
def backoff (retry : Int) : Int := wrapInt64 (1000000 * wrapInt64 (retry * 500))

/-- The outcome of one `Dial`, and of the dial loop: a connection or the error. -/
inductive DialResult where
  | conn (c : Nat)
  | failed (err : String)
deriving DecidableEq, Repr

/-- The dial loop of `NewWsService` (lines 77 to 103) and of `reconnect` (lines 202 to
219), entered with the given value of `retry`. Each pass dials once, so the pass entered
with `retry` makes attempt number `retry` (counted from 0) of the episode. As `retry`
never exceeds `maxRetry`, an int64, `retry++` does not overflow. The first argument bounds
the number of passes. -/
def dialFrom (dial : Nat → DialResult) (maxRetry : Int) :
    Nat → Nat → DialResult × List Event
  | 0, _ => (DialResult.failed "", [])
  | fuel + 1, retry =>
    match dial retry with
    | DialResult.conn c => (DialResult.conn c, [Event.dial true])
    | DialResult.failed e =>
      if (retry : Int) ≥ maxRetry then (DialResult.failed e, [Event.dial false])
      else
        let r := dialFrom dial maxRetry fuel (retry + 1)
        (r.1, Event.dial false :: Event.sleep (backoff ((retry : Int) + 1)) :: r.2)

/-- The dial loop from `retry := 0`. It ends within `maxRetry + 1` passes. -/
def dialLoop (dial : Nat → DialResult) (maxRetry : Int) : DialResult × List Event :=
  dialFrom dial maxRetry (maxRetry.toNat + 1) 0

def getInitConnConf : ConnConf :=
  { App := "spot", subscribeMsg := some [], MaxRetryConn := Xtws.MaxRetryConn, Key := "",
    Secret := "", URL := BaseUrl, SkipTlsVerify := false, ShowReconnectMsg := true,
    PingInterval := DefaultPingInterval }

def applyOptionConf (defaultConf userConf : ConnConf) : ConnConf :=
  let c1 := if userConf.App = "" then { userConf with App := defaultConf.App } else userConf
  let c2 := if c1.URL = "" then { c1 with URL := defaultConf.URL } else c1
  let c3 := if c2.MaxRetryConn = 0 then { c2 with MaxRetryConn := defaultConf.MaxRetryConn }
    else c2
  if c3.PingInterval = "" then { c3 with PingInterval := defaultConf.PingInterval } else c3

def NewConnConfFromOption (op : ConfOptions) : ConnConf :=
  let url := if op.URL = "" then BaseUrl else op.URL
  let maxRetry := if op.MaxRetryConn = 0 then Xtws.MaxRetryConn else op.MaxRetryConn
  { App := op.App, subscribeMsg := some [], MaxRetryConn := maxRetry, Key := op.Key,
    Secret := op.Secret, URL := url, SkipTlsVerify := op.SkipTlsVerify,
    ShowReconnectMsg := op.ShowReconnectMsg, PingInterval := op.PingInterval }

/-- The function `NewWsService`: the configuration, the dial loop, then the session with
its reader started. `heap` holds the options objects of the caller. -/
def NewWsService (conf : Option ConnConf) (heap : List SubscribeOptions)
    (dial : Nat → DialResult) : Res × Option WsService :=
  let defaultConf := getInitConnConf
  let conf1 := match conf with
    | some c => applyOptionConf defaultConf c
    | none => defaultConf
  let d := dialLoop dial conf1.MaxRetryConn
  match d.1 with
  | DialResult.failed e => (Res.err e, none)
  | DialResult.conn c =>
    let ws : WsService :=
      { Client := some c, once := false, loginOnce := false, calls := [], conf := conf1,
        status := status.connected, heap := heap, writes := 0, trace := d.2 }
    (Res.ok, some ws.readMsg)

/-- One pass of the inner loop of the replay (lines 227 to 242): the options are marked
through the pointer, or a fresh marked object is made when the entry has none, and the
request is issued again. -/
def replayEntry (wr : Nat → Bool) (req : requestHistory) (ws : WsService) :
    Res × WsService :=
  match req.op with
  | none =>
    let ws1 : WsService := { ws with heap := ws.heap ++ [{ ID := "", IsReConnect := true }] }
    ws1.baseSubscribe wr req.Method [req.Channel] (some ws.heap.length)
  | some p =>
    let ws1 : WsService :=
      { ws with heap := ws.heap.set p { deref ws.heap p with IsReConnect := true } }
    ws1.baseSubscribe wr req.Method [req.Channel] (some p)

/-- The inner loop of the replay over the requests of one channel. An error of
`baseSubscribe` is logged and the loop goes on; a panic ends it. -/
def replayEntries (wr : Nat → Bool) : List requestHistory → WsService → Res × WsService
  | [], ws => (Res.ok, ws)
  | req :: rest, ws =>
    let r := replayEntry wr req ws
    if r.1 = Res.panicked then r else replayEntries wr rest r.2

/-- The call `subscribeMsg.Range` of `reconnect`, over the entries the map held when it
began, in the order given. -/
def replayAll (wr : Nat → Bool) : Registry → WsService → Res × WsService
  | [], ws => (Res.ok, ws)
  | (_, value) :: rest, ws =>
    let r := replayEntries wr value ws
    if r.1 = Res.panicked then r else replayAll wr rest r.2

/-- The method `reconnect`; `visit` is the order in which `Range` visits the registry.
`Range` on a nil registry panics; the deferred unlock of `clientMu` runs on every way
out. -/
def WsService.reconnect (dial : Nat → DialResult) (wr : Nat → Bool)
    (visit : Registry → Registry) (ws : WsService) : Res × WsService :=
  if ws.status = status.reconnecting then (Res.ok, ws)
  else
    let ws1 := ws.emit Event.clientMuLock
    let ws2 := if ws1.Client.isSome then ws1.emit Event.closeConn else ws1
    let ws3 := WsService.emit { ws2 with status := status.reconnecting }
      (Event.setStatus status.reconnecting)
    let d := dialLoop dial ws3.conf.MaxRetryConn
    let ws4 := { ws3 with trace := ws3.trace ++ d.2 }
    match d.1 with
    | DialResult.failed e => (Res.err e, ws4.emit Event.clientMuUnlock)
    | DialResult.conn c =>
      let ws5 := WsService.emit { ws4 with Client := some c, status := status.connected }
        (Event.setStatus status.connected)
      match ws5.conf.subscribeMsg with
      | none => (Res.panicked, ws5.emit Event.clientMuUnlock)
      | some reg =>
        let r := replayAll wr (visit reg) ws5
        (r.1, r.2.emit Event.clientMuUnlock)

def WsService.SetKey (key : String) (ws : WsService) : WsService :=
  { ws with conf := { ws.conf with Key := key } }

def WsService.SetSecret (secret : String) (ws : WsService) : WsService :=
  { ws with conf := { ws.conf with Secret := secret } }

def WsService.SetMaxRetryConn (max : Int) (ws : WsService) : WsService :=
  { ws with conf := { ws.conf with MaxRetryConn := max } }

/-- One tick of the ticker in `activePing` (lines 318 to 326). -/
def WsService.activePing (wr : Nat → Bool) (ws : WsService) : WsService :=
  if ws.status ≠ status.connected then ws
  else (ws.WriteMessage wr "ping").2

/-- One pass of the reader loop of `readMsg` (lines 153 to 181) when the context is not
done. `input` is what `ReadMessage` returns: `none` for an error, else the bytes of the
raw message. `unmarshal` is `json.Unmarshal` into an `UpdateMsg` (`none` when it returns an
error). The result says whether the loop goes on. -/
def WsService.readMsgPass (unmarshal : List UInt8 → Option UpdateMsg)
    (dial : Nat → DialResult) (wr : Nat → Bool) (visit : Registry → Registry)
    (input : Option (List UInt8)) (ws : WsService) : Bool × WsService :=
  match input with
  | none =>
    let r := ws.reconnect dial wr visit
    (decide (r.1 = Res.ok), r.2)
  | some rawMsg =>
    if rawMsg = asciiBytes "pong" then (true, ws)
    else
      match unmarshal rawMsg with
      | none => (true, ws)
      | some msg =>
        let channel := msg.Topic
        if channel = "" then (true, ws)
        else
          match Load ws.calls channel with
          | some call => (true, ws.emit (Event.invoke call rawMsg))
          | none => (true, ws)

/-! ## Notions used to state the properties -/

/-- A heartbeat channel: its name ends in `.ping` or `.time` (the test of line 126). -/
def isHeartbeat (channel : String) : Bool :=
  HasSuffix channel ".ping" || HasSuffix channel ".time"

/-- The recording policy in the words of the specification, over the channels of one call
in order: a heartbeat channel is not recorded; a channel already recorded is not recorded
again when the call is a replay; every other channel gets one new entry at the end of its
sequence. -/
def specRecord (method : String) (op : Option Nat) (isReplay : Bool) :
    List String → Registry → Registry
  | [], reg => reg
  | channel :: rest, reg =>
    if isHeartbeat channel then specRecord method op isReplay rest reg
    else
      match Load reg channel with
      | some reqs =>
        if isReplay then specRecord method op isReplay rest reg
        else specRecord method op isReplay rest
          (Store reg channel (reqs ++ [⟨channel, method, op⟩]))
      | none => specRecord method op isReplay rest (Store reg channel [⟨channel, method, op⟩])

/-- All recorded requests of a registry, channel after channel. -/
def allRequests (reg : Registry) : List requestHistory :=
  reg.flatMap Prod.snd

/-- The heap after the replay has marked the options of one request. -/
def markEntry (heap : List SubscribeOptions) (req : requestHistory) : List SubscribeOptions :=
  match req.op with
  | none => heap ++ [{ ID := "", IsReConnect := true }]
  | some p => heap.set p { deref heap p with IsReConnect := true }

/-- The heap after the replay has marked the options of each request in turn. -/
def markAll : List requestHistory → List SubscribeOptions → List SubscribeOptions
  | [], heap => heap
  | req :: rest, heap => markAll rest (markEntry heap req)

/-- The options the replay passes to `baseSubscribe` for a request. -/
def markedOp (heap : List SubscribeOptions) (req : requestHistory) : SubscribeOptions :=
  match req.op with
  | none => { ID := "", IsReConnect := true }
  | some p => { deref heap p with IsReConnect := true }

/-- The events of replaying the requests from a heap and a count of writes. -/
def replayTrace (wr : Nat → Bool) :
    List requestHistory → List SubscribeOptions → Nat → List Event
  | [], _, _ => []
  | req :: rest, heap, n =>
    [Event.command req.Method [req.Channel] (some (markedOp heap req)), Event.muLock,
      Event.write (marshalRequest
        { Id := (markedOp heap req).ID, Method := req.Method, Params := [req.Channel] }) (wr n),
      Event.muUnlock] ++ replayTrace wr rest (markEntry heap req) (n + 1)

/-- A registry as Go builds it: every request is filed under its own channel and every
options pointer refers to an object of the heap. -/
def RegistryWF (reg : Registry) (heap : List SubscribeOptions) : Prop :=
  ∀ kv ∈ reg, ∀ req ∈ kv.2, req.Channel = kv.1 ∧ ∀ p, req.op = some p → p < heap.length

/-- A recorded request with its options read through the pointer. -/
structure RequestView where
  Channel : String
  Method : String
  op : Option SubscribeOptions
deriving DecidableEq, Repr

/-- The recorded history with the options read through their pointers: per channel the
requests as channel, method and options. -/
def registryView (reg : Registry) (heap : List SubscribeOptions) :
    List (String × List RequestView) :=
  reg.map fun kv => (kv.1, kv.2.map fun req =>
    { Channel := req.Channel, Method := req.Method, op := req.op.map (deref heap) })

/-- A view of the history in which every request that has options has them marked as a
replay. -/
def markView (v : List (String × List RequestView)) : List (String × List RequestView) :=
  v.map fun kv => (kv.1, kv.2.map fun e =>
    { e with op := e.op.map fun o => { o with IsReConnect := true } })

/-- The history of a session, `none` when the registry is nil. -/
def WsService.history (ws : WsService) : Option (List (String × List RequestView)) :=
  ws.conf.subscribeMsg.map fun reg => registryView reg ws.heap

/-- The events a session has added since an earlier state. -/
def WsService.since (ws earlier : WsService) : List Event :=
  ws.trace.drop earlier.trace.length

/-- A connected session with an empty registry, no credentials and one options object
(ID 7, not a replay) at address 0. -/
def freshSession : WsService :=
  { Client := some 0, once := true, loginOnce := false, calls := [], conf := getInitConnConf,
    status := status.connected, heap := [{ ID := "7", IsReConnect := false }], writes := 0,
    trace := [] }

/-- A socket on which every write succeeds. -/
def writesOk : Nat → Bool := fun _ => true

/-- A server that accepts the first dial, with connection 1. -/
def dialOk : Nat → DialResult := fun _ => DialResult.conn 1

/-- The fresh session after `SubscribeWithOption(["ticker@btc_usdt"], op)` with the options
object at address 0. -/
def subscribedSession : WsService :=
  (freshSession.SubscribeWithOption authChannel writesOk ["ticker@btc_usdt"] (some 0)).2

/-- A call of the subscribing interface. -/
inductive Call where
  | Subscribe (channels : List String)
  | SubscribeWithOption (channels : List String) (op : Option Nat)
deriving DecidableEq, Repr

def Call.channels : Call → List String
  | Call.Subscribe channels => channels
  | Call.SubscribeWithOption channels _ => channels

def Call.op : Call → Option Nat
  | Call.Subscribe _ => none
  | Call.SubscribeWithOption _ op => op

/-- The session performs one call. -/
def WsService.perform (auth : String → Bool) (wr : Nat → Bool) (c : Call) (ws : WsService) :
    Res × WsService :=
  match c with
  | Call.Subscribe channels => ws.Subscribe auth wr channels
  | Call.SubscribeWithOption channels op => ws.SubscribeWithOption auth wr channels op

/-- The session performs the calls one after the other; the results and the last state. -/
def runCalls (auth : String → Bool) (wr : Nat → Bool) :
    List Call → WsService → List Res × WsService
  | [], ws => ([], ws)
  | c :: rest, ws =>
    ((ws.perform auth wr c).1 :: (runCalls auth wr rest (ws.perform auth wr c).2).1,
      (runCalls auth wr rest (ws.perform auth wr c).2).2)

/-- In the list of channels no other channel follows a heartbeat channel. -/
def heartbeatsLast : List String → Bool
  | [] => true
  | channel :: rest => if isHeartbeat channel then rest.all isHeartbeat else heartbeatsLast rest

/-- The event is the issue of a command whose only channel is `t`. -/
def namesTopic (t : String) : Event → Bool
  | Event.command _ channels _ => decide (channels = [t])
  | _ => false

/-- A registry built by subscribe calls alone: no heartbeat channel is a key, and every
request is a subscribe request filed under its own channel with a valid options
pointer. -/
def SubscribedOnly (heap : List SubscribeOptions) (reg : Registry) : Prop :=
  ∀ kv ∈ reg, isHeartbeat kv.1 = false ∧ ∀ req ∈ kv.2,
    req.Channel = kv.1 ∧ req.Method = Subscribe ∧ ∀ p, req.op = some p → p < heap.length

/-- The event is a write of the given frame. -/
def writesFrame (frame : String) : Event → Bool
  | Event.write f _ => decide (f = frame)
  | _ => false

/-- The events of `n` failed attempts that are each followed by a retry, the first of them
made with the given value of `retry`: a failed dial, then the sleep. -/
def retryEvents : Nat → Nat → List Event
  | _, 0 => []
  | retry, n + 1 =>
    Event.dial false :: Event.sleep (backoff ((retry : Int) + 1)) :: retryEvents (retry + 1) n

/-- A server that refuses every dial. -/
def dialRefused : Nat → DialResult := fun _ => DialResult.failed "refused"

/-- A server that refuses the first two dials and then accepts, with connection 7. -/
def dialThird : Nat → DialResult :=
  fun n => if n < 2 then DialResult.failed "refused" else DialResult.conn 7

/-- An auth table that marks `futures.orders`, as the first commented entry of the
source would. -/
def authOrders : String → Bool := fun channel => decide (channel = "futures.orders")

/-- A connected session with credentials (key `k`, secret `s`) and an empty registry. -/
def keyedSession : WsService :=
  { freshSession with conf := { getInitConnConf with Key := "k", Secret := "s" } }

/-- Every write of the events happens while `ws.mu` is held; the first argument says
whether the lock is held at the start. -/
def writesUnderLock : Bool → List Event → Bool
  | _, [] => true
  | _, Event.muLock :: rest => writesUnderLock true rest
  | _, Event.muUnlock :: rest => writesUnderLock false rest
  | held, Event.write _ _ :: rest => held && writesUnderLock held rest
  | held, _ :: rest => writesUnderLock held rest

/-- A socket on which the first write fails and every later one succeeds. -/
def writesFailFirst : Nat → Bool := fun n => decide (n ≠ 0)

/-- A decoder for one frame: the ticker update decodes to its topic, nothing else
decodes. -/
def unmarshalTicker : List UInt8 → Option UpdateMsg := fun raw =>
  if raw = asciiBytes "\x7b\"topic\":\"ticker@btc_usdt\",\"event\":\"ticker\"\x7d" then
    some { Topic := "ticker@btc_usdt", Event := "ticker" }
  else none

/-- The event is a write to the socket. -/
def isWrite : Event → Bool
  | Event.write _ _ => true
  | _ => false

/-- A configuration built directly by a caller of the package, `&ConnConf{Key: "k",
Secret: "s"}`: the exported fields it does not set are zero and the unexported
`subscribeMsg` is nil. -/
def callerConf : ConnConf :=
  { App := "", subscribeMsg := none, URL := "", Key := "k", Secret := "s", MaxRetryConn := 0,
    SkipTlsVerify := false, ShowReconnectMsg := false, PingInterval := "" }

/-! # Properties -/

/-! ## The registry as a map -/

theorem Load_isSome_of_mem {β : Type} (m : List (String × β)) (k : String) (v : β)
    (h : (k, v) ∈ m) : (Load m k).isSome = true := by
  induction m with
  | nil => simp at h
  | cons kv rest ih =>
    obtain ⟨k1, v1⟩ := kv
    by_cases hk : k1 = k
    · simp [Load, hk]
    · have hmem : (k, v) ∈ rest := by
        rcases List.mem_cons.mp h with h1 | h1
        · exact absurd (congrArg Prod.fst h1).symm hk
        · exact h1
      simp [Load, hk, ih hmem]

/-! ## C2: the recording loop -/

/-- C2, evaluated where the code leaves the policy: on an empty registry the successful
non-replay call `baseSubscribe("subscribe", ["spot.ping", "ticker@btc_usdt"], nil)` writes
its frame and returns nil, yet records nothing, while the recording policy records
`ticker@btc_usdt`: the `return nil` at the heartbeat channel ends the whole loop. -/
theorem baseSubscribe_stops_at_heartbeat :
    (freshSession.baseSubscribe writesOk Subscribe ["spot.ping", "ticker@btc_usdt"] none).1
        = Res.ok
      ∧ (freshSession.baseSubscribe writesOk Subscribe
          ["spot.ping", "ticker@btc_usdt"] none).2.conf.subscribeMsg = some []
      ∧ specRecord Subscribe none false ["spot.ping", "ticker@btc_usdt"] []
        = [("ticker@btc_usdt", [⟨"ticker@btc_usdt", Subscribe, none⟩])] := by
  decide

/-! ## The replay of `reconnect` -/

theorem baseSubscribe_recorded_replay (wr : Nat → Bool) (m channel : String) (p : Nat)
    (ws : WsService) (reg : Registry) (hreg : ws.conf.subscribeMsg = some reg)
    (hload : (Load reg channel).isSome = true)
    (hflag : (deref ws.heap p).IsReConnect = true) :
    ws.baseSubscribe wr m [channel] (some p) =
      (if wr ws.writes = true then Res.ok else writeErr,
        { ws with
          writes := ws.writes + 1,
          trace := ws.trace ++ [Event.command m [channel] (some (deref ws.heap p)),
            Event.muLock,
            Event.write (marshalRequest
              { Id := (deref ws.heap p).ID, Method := m, Params := [channel] }) (wr ws.writes),
            Event.muUnlock] }) := by
  obtain ⟨reqs, hreqs⟩ := Option.isSome_iff_exists.mp hload
  obtain ⟨cl, onc, lo, ca, conf, st, heap, writes, trace⟩ := ws
  obtain ⟨a1, sm, a3, a4, a5, a6, a7, a8, a9⟩ := conf
  simp only at hreg hflag
  subst hreg
  cases hw : wr writes <;>
    simp [WsService.baseSubscribe, WsService.emit, WsService.WriteMessage, hw, recordLoop,
      hreqs, hflag, isReConnect]


theorem deref_append_fresh (heap : List SubscribeOptions) (o : SubscribeOptions) :
    deref (heap ++ [o]) heap.length = o := by
  simp [deref, List.getD_eq_getElem?_getD]

theorem deref_set_self (heap : List SubscribeOptions) (p : Nat) (o : SubscribeOptions)
    (h : p < heap.length) : deref (heap.set p o) p = o := by
  simp [deref, List.getD_eq_getElem?_getD, h]

theorem replayEntry_eq (wr : Nat → Bool) (req : requestHistory) (ws : WsService)
    (reg : Registry) (hreg : ws.conf.subscribeMsg = some reg)
    (hload : (Load reg req.Channel).isSome = true)
    (hvalid : ∀ p, req.op = some p → p < ws.heap.length) :
    replayEntry wr req ws =
      (if wr ws.writes = true then Res.ok else writeErr,
        { ws with
          heap := markEntry ws.heap req,
          writes := ws.writes + 1,
          trace := ws.trace ++ replayTrace wr [req] ws.heap ws.writes }) := by
  cases hop : req.op with
  | none =>
    have h := baseSubscribe_recorded_replay wr req.Method req.Channel ws.heap.length
      { ws with heap := ws.heap ++ [{ ID := "", IsReConnect := true }] } reg hreg hload
      (by simp [deref_append_fresh])
    simp only [replayEntry, hop, h]
    simp [markEntry, hop, replayTrace, markedOp, deref_append_fresh]
  | some p =>
    have hp := hvalid p hop
    have h := baseSubscribe_recorded_replay wr req.Method req.Channel p
      { ws with heap := ws.heap.set p { deref ws.heap p with IsReConnect := true } } reg hreg
      hload (by simp [deref_set_self, hp])
    simp only [replayEntry, hop, h]
    simp [markEntry, hop, replayTrace, markedOp, deref_set_self, hp]

theorem markEntry_length_le (heap : List SubscribeOptions) (req : requestHistory) :
    heap.length ≤ (markEntry heap req).length := by
  cases hop : req.op <;> simp [markEntry, hop]

theorem replayEntries_eq (wr : Nat → Bool) (reg : Registry) (reqs : List requestHistory) :
    ∀ ws : WsService, ws.conf.subscribeMsg = some reg →
      (∀ req ∈ reqs, (Load reg req.Channel).isSome = true
        ∧ ∀ p, req.op = some p → p < ws.heap.length) →
      replayEntries wr reqs ws =
        (Res.ok,
          { ws with
            heap := markAll reqs ws.heap,
            writes := ws.writes + reqs.length,
            trace := ws.trace ++ replayTrace wr reqs ws.heap ws.writes }) := by
  induction reqs with
  | nil => intro ws _ _; simp [replayEntries, markAll, replayTrace]
  | cons req rest ih =>
    intro ws hreg hall
    have hreq := hall req (List.mem_cons_self _ _)
    have he := replayEntry_eq wr req ws reg hreg hreq.1 hreq.2
    have hne : (replayEntry wr req ws).1 ≠ Res.panicked := by
      rw [he]; cases wr ws.writes <;> simp [writeErr]
    have hrest := ih (replayEntry wr req ws).2 (by rw [he]; exact hreg) (by
      intro r hr
      have h1 := hall r (List.mem_cons_of_mem _ hr)
      refine ⟨h1.1, fun p hp => ?_⟩
      rw [he]
      exact Nat.lt_of_lt_of_le (h1.2 p hp) (markEntry_length_le _ _))
    simp only [replayEntries, hne, if_false]
    rw [hrest, he]
    simp [markAll, replayTrace, Nat.add_assoc, Nat.add_comm 1]

theorem replayEntries_append (wr : Nat → Bool) (xs ys : List requestHistory) :
    ∀ ws : WsService, replayEntries wr (xs ++ ys) ws =
      if (replayEntries wr xs ws).1 = Res.panicked then replayEntries wr xs ws
      else replayEntries wr ys (replayEntries wr xs ws).2 := by
  induction xs with
  | nil => intro ws; simp [replayEntries]
  | cons x rest ih =>
    intro ws
    by_cases hp : (replayEntry wr x ws).1 = Res.panicked
    · simp [replayEntries, hp]
    · simp [replayEntries, hp, ih]

theorem replayAll_eq_replayEntries (wr : Nat → Bool) (reg : Registry) :
    ∀ ws : WsService, replayAll wr reg ws = replayEntries wr (allRequests reg) ws := by
  induction reg with
  | nil => intro ws; simp [replayAll, allRequests, replayEntries]
  | cons kv rest ih =>
    intro ws
    obtain ⟨k, v⟩ := kv
    have h := replayEntries_append wr v (allRequests rest) ws
    simp only [allRequests, List.flatMap_cons] at h ⊢
    rw [h]
    by_cases hp : (replayEntries wr v ws).1 = Res.panicked
    · simp [replayAll, hp]
    · simp only [replayAll, hp, if_false]
      exact ih _


theorem RegistryWF.replayable {reg visited : Registry} {heap : List SubscribeOptions}
    (hwf : RegistryWF reg heap) (hvisit : visited.Perm reg) :
    ∀ req ∈ allRequests visited, (Load reg req.Channel).isSome = true
      ∧ ∀ p, req.op = some p → p < heap.length := by
  intro req hreq
  obtain ⟨kv, hkv0, hmem⟩ := List.mem_flatMap.mp hreq
  have hkv := hvisit.mem_iff.mp hkv0
  have h := hwf kv hkv req hmem
  refine ⟨?_, h.2⟩
  rw [h.1]
  exact Load_isSome_of_mem reg kv.1 kv.2 hkv

theorem reconnect_eq (dial : Nat → DialResult) (wr : Nat → Bool)
    (visit : Registry → Registry) (ws : WsService)
    (reg : Registry) (c : Nat) (hreg : ws.conf.subscribeMsg = some reg)
    (hwf : RegistryWF reg ws.heap) (hvisit : (visit reg).Perm reg)
    (hst : ws.status ≠ status.reconnecting)
    (hd : (dialLoop dial ws.conf.MaxRetryConn).1 = DialResult.conn c) :
    ws.reconnect dial wr visit =
      (Res.ok,
        { ws with
          Client := some c,
          status := status.connected,
          heap := markAll (allRequests (visit reg)) ws.heap,
          writes := ws.writes + (allRequests (visit reg)).length,
          trace := ws.trace ++ (Event.clientMuLock ::
            ((if ws.Client.isSome = true then [Event.closeConn] else [])
              ++ Event.setStatus status.reconnecting
                :: ((dialLoop dial ws.conf.MaxRetryConn).2
              ++ Event.setStatus status.connected
                :: (replayTrace wr (allRequests (visit reg)) ws.heap ws.writes
              ++ [Event.clientMuUnlock])))) }) := by
  have hrep := hwf.replayable hvisit
  have key : ∀ (cl : Option Nat) (st : status) (tr : List Event),
      replayAll wr (visit reg) { ws with Client := cl, status := st, trace := tr } = (Res.ok,
        { ws with
          Client := cl, status := st,
          heap := markAll (allRequests (visit reg)) ws.heap,
          writes := ws.writes + (allRequests (visit reg)).length,
          trace := tr ++ replayTrace wr (allRequests (visit reg)) ws.heap ws.writes }) := by
    intro cl st tr
    rw [replayAll_eq_replayEntries]
    exact replayEntries_eq wr reg (allRequests (visit reg)) _ hreg hrep
  unfold WsService.reconnect
  simp only [hst, if_false, WsService.emit]
  cases hcl : ws.Client with
  | none =>
    simp only [Option.isSome_none, Bool.false_eq_true, if_false, hd, hreg]
    rw [key]
    simp
  | some c0 =>
    simp only [Option.isSome_some, if_true, hd, hreg]
    rw [key]
    simp


theorem markEntry_deref (heap : List SubscribeOptions) (req : requestHistory) (q : Nat)
    (hq : q < heap.length) :
    deref (markEntry heap req) q =
      { deref heap q with
        IsReConnect := (deref heap q).IsReConnect || decide (req.op = some q) } := by
  cases hop : req.op with
  | none => simp [markEntry, hop, deref, List.getD_eq_getElem?_getD, List.getElem?_append_left hq]
  | some p =>
    by_cases hpq : p = q
    · subst hpq
      simp [markEntry, hop, deref_set_self, hq]
    · simp [markEntry, hop, deref, List.getD_eq_getElem?_getD, List.getElem?_set_ne hpq, hpq]

theorem markAll_deref (reqs : List requestHistory) :
    ∀ (heap : List SubscribeOptions) (q : Nat), q < heap.length →
      deref (markAll reqs heap) q =
        { deref heap q with
          IsReConnect := (deref heap q).IsReConnect
            || reqs.any fun r => decide (r.op = some q) } := by
  induction reqs with
  | nil => intro heap q _; simp [markAll]
  | cons req rest ih =>
    intro heap q hq
    have h1 := ih (markEntry heap req) q (Nat.lt_of_lt_of_le hq (markEntry_length_le heap req))
    simp only [markAll]
    rw [h1, markEntry_deref heap req q hq]
    simp [Bool.or_assoc]

theorem markAll_length_le (reqs : List requestHistory) :
    ∀ heap : List SubscribeOptions, heap.length ≤ (markAll reqs heap).length := by
  induction reqs with
  | nil => intro heap; simp [markAll]
  | cons req rest ih =>
    intro heap
    exact Nat.le_trans (markEntry_length_le heap req) (ih _)

theorem registryView_markAll (reg visited : Registry) (heap : List SubscribeOptions)
    (hwf : RegistryWF reg heap) (hvisit : visited.Perm reg) :
    registryView reg (markAll (allRequests visited) heap)
      = markView (registryView reg heap) := by
  simp only [registryView, markView, List.map_map]
  apply List.map_congr_left
  intro kv hkv
  simp only [Function.comp, List.map_map, Prod.mk.injEq, true_and]
  apply List.map_congr_left
  intro req hreq
  simp only [Function.comp, RequestView.mk.injEq, true_and]
  cases hop : req.op with
  | none => simp
  | some p =>
    have hp := (hwf kv hkv req hreq).2 p hop
    have hany : (allRequests visited).any (fun r => decide (r.op = some p)) = true := by
      rw [List.any_eq_true]
      exact ⟨req, List.mem_flatMap.mpr ⟨kv, hvisit.mem_iff.mpr hkv, hreq⟩, by simp [hop]⟩
    simp [markAll_deref _ heap p hp, hany]

theorem markView_markView (v : List (String × List RequestView)) :
    markView (markView v) = markView v := by
  simp only [markView, List.map_map]
  apply List.map_congr_left
  intro kv _
  simp only [Function.comp, List.map_map, Prod.mk.injEq, true_and]
  apply List.map_congr_left
  intro e _
  cases h : e.op <;> simp [h]

theorem reconnect_history (dial : Nat → DialResult) (wr : Nat → Bool)
    (visit : Registry → Registry) (ws : WsService)
    (reg : Registry) (c : Nat) (hreg : ws.conf.subscribeMsg = some reg)
    (hwf : RegistryWF reg ws.heap) (hvisit : (visit reg).Perm reg)
    (hst : ws.status ≠ status.reconnecting)
    (hd : (dialLoop dial ws.conf.MaxRetryConn).1 = DialResult.conn c) :
    (ws.reconnect dial wr visit).1 = Res.ok
      ∧ (ws.reconnect dial wr visit).2.conf = ws.conf
      ∧ (ws.reconnect dial wr visit).2.history = some (markView (registryView reg ws.heap))
      ∧ RegistryWF reg (ws.reconnect dial wr visit).2.heap
      ∧ (ws.reconnect dial wr visit).2.status = status.connected := by
  rw [reconnect_eq dial wr visit ws reg c hreg hwf hvisit hst hd]
  refine ⟨rfl, rfl, ?_, ?_, rfl⟩
  · simp [WsService.history, hreg, registryView_markAll reg (visit reg) ws.heap hwf hvisit]
  · intro kv hkv req hreq
    have h := hwf kv hkv req hreq
    exact ⟨h.1, fun p hp => Nat.lt_of_lt_of_le (h.2 p hp) (markAll_length_le _ _)⟩

/-! ## C3: the registry across a reconnect -/

/-- C3 as amended: on a well-formed registry, for every outcome of the replay writes and
every order of the replay, a successful reconnect leaves the registry as it was (the same
channels, and per channel the same requests with the same channel, method and options
pointer); read through the pointers, the history is the one before the reconnect with the
`IsReConnect` flag of every request that has options set to true and the ID unchanged.
The registry stays well formed, and a further successful reconnect leaves the history
exactly as the first one left it: the history never grows, and after the first reconnect
it no longer changes. -/
theorem reconnect_keeps_registry (dial : Nat → DialResult) (wr : Nat → Bool)
    (visit : Registry → Registry) (ws : WsService)
    (reg : Registry) (c : Nat) (hreg : ws.conf.subscribeMsg = some reg)
    (hwf : RegistryWF reg ws.heap) (hvisit : (visit reg).Perm reg)
    (hst : ws.status ≠ status.reconnecting)
    (hd : (dialLoop dial ws.conf.MaxRetryConn).1 = DialResult.conn c) :
    (ws.reconnect dial wr visit).1 = Res.ok
      ∧ (ws.reconnect dial wr visit).2.conf.subscribeMsg = some reg
      ∧ (ws.reconnect dial wr visit).2.history = some (markView (registryView reg ws.heap))
      ∧ RegistryWF reg (ws.reconnect dial wr visit).2.heap
      ∧ (ws.reconnect dial wr visit).2.status = status.connected
      ∧ ∀ (dial2 : Nat → DialResult) (wr2 : Nat → Bool) (c2 : Nat),
        (dialLoop dial2 ws.conf.MaxRetryConn).1 = DialResult.conn c2 →
        ((ws.reconnect dial wr visit).2.reconnect dial2 wr2 visit).2.history
          = (ws.reconnect dial wr visit).2.history := by
  obtain ⟨h1, h2, h3, h4, h5⟩ := reconnect_history dial wr visit ws reg c hreg hwf hvisit hst hd
  refine ⟨h1, by rw [h2]; exact hreg, h3, h4, h5, ?_⟩
  intro dial2 wr2 c2 hd2
  obtain ⟨_, _, k3, _, _⟩ := reconnect_history dial2 wr2 visit (ws.reconnect dial wr visit).2 reg
    c2 (by rw [h2]; exact hreg) h4 hvisit (by rw [h5]; decide) (by rw [h2]; exact hd2)
  have hview : registryView reg (ws.reconnect dial wr visit).2.heap
      = markView (registryView reg ws.heap) := by
    have h := h3
    simp only [WsService.history, h2, hreg, Option.map_some', Option.some.injEq] at h
    exact h
  rw [k3, h3, hview, markView_markView]

/-- C3 refuted as stated: a request recorded through `SubscribeWithOption` with options
(ID 7, `IsReConnect` false) has `IsReConnect` true in the history after one successful
reconnect, because the replay sets the flag through the stored pointer. -/
theorem reconnect_alters_recorded_options :
    subscribedSession.history
        = some [("ticker@btc_usdt", [⟨"ticker@btc_usdt", "subscribe",
            some { ID := "7", IsReConnect := false }⟩])]
      ∧ (subscribedSession.reconnect dialOk writesOk id).1 = Res.ok
      ∧ (subscribedSession.reconnect dialOk writesOk id).2.history
        = some [("ticker@btc_usdt", [⟨"ticker@btc_usdt", "subscribe",
            some { ID := "7", IsReConnect := true }⟩])]
      ∧ (subscribedSession.reconnect dialOk writesOk id).2.history ≠ subscribedSession.history := by
  decide

theorem reconnect_keeps_registry_witness :
    subscribedSession.conf.subscribeMsg
        = some [("ticker@btc_usdt", [⟨"ticker@btc_usdt", "subscribe", some 0⟩])]
      ∧ (subscribedSession.reconnect dialOk writesOk id).1 = Res.ok
      ∧ (subscribedSession.reconnect dialOk writesOk id).2.conf.subscribeMsg
        = some [("ticker@btc_usdt", [⟨"ticker@btc_usdt", "subscribe", some 0⟩])]
      ∧ (subscribedSession.reconnect dialOk writesOk id).2.history
        = some (markView (registryView
            [("ticker@btc_usdt", [⟨"ticker@btc_usdt", "subscribe", some 0⟩])]
            subscribedSession.heap))
      ∧ RegistryWF [("ticker@btc_usdt", [⟨"ticker@btc_usdt", "subscribe", some 0⟩])]
          (subscribedSession.reconnect dialOk writesOk id).2.heap
      ∧ (subscribedSession.reconnect dialOk writesOk id).2.status = status.connected
      ∧ ∀ (dial2 : Nat → DialResult) (wr2 : Nat → Bool) (c2 : Nat),
        (dialLoop dial2 subscribedSession.conf.MaxRetryConn).1 = DialResult.conn c2 →
        ((subscribedSession.reconnect dialOk writesOk id).2.reconnect dial2 wr2 id).2.history
          = (subscribedSession.reconnect dialOk writesOk id).2.history :=
  ⟨by decide,
    reconnect_keeps_registry dialOk writesOk id subscribedSession
      [("ticker@btc_usdt", [⟨"ticker@btc_usdt", "subscribe", some 0⟩])] 1 (by decide)
      (by
        intro kv hkv req hreq
        simp only [List.mem_singleton] at hkv
        subst hkv
        simp only [List.mem_singleton] at hreq
        subst hreq
        refine ⟨rfl, fun p hp => ?_⟩
        have h0 : p = 0 := by simpa using hp.symm
        subst h0
        decide)
      (List.Perm.refl _) (by decide) (by decide)⟩

/-! ## Recording by subscribe calls -/

theorem Load_some_mem {β : Type} (m : List (String × β)) (k : String) (v : β)
    (h : Load m k = some v) : (k, v) ∈ m := by
  induction m with
  | nil => simp [Load] at h
  | cons kv rest ih =>
    obtain ⟨k1, v1⟩ := kv
    by_cases hk : k1 = k
    · simp [Load, hk] at h
      simp [hk, h]
    · simp [Load, hk] at h
      exact List.mem_cons_of_mem _ (ih h)

theorem mem_Store {β : Type} (m : List (String × β)) (k : String) (v : β) (kv : String × β)
    (h : kv ∈ Store m k v) : kv = (k, v) ∨ kv ∈ m := by
  induction m with
  | nil => simp [Store] at h; exact Or.inl h
  | cons kv1 rest ih =>
    obtain ⟨k1, v1⟩ := kv1
    by_cases hk : k1 = k
    · simp [Store, hk] at h
      rcases h with h | h
      · exact Or.inl h
      · exact Or.inr (List.mem_cons_of_mem _ h)
    · simp [Store, hk] at h
      rcases h with h | h
      · exact Or.inr (by simp [h])
      · rcases ih h with h1 | h1
        · exact Or.inl h1
        · exact Or.inr (List.mem_cons_of_mem _ h1)

theorem Store_of_Load_none {β : Type} (m : List (String × β)) (k : String) (v : β)
    (h : Load m k = none) : Store m k v = m ++ [(k, v)] := by
  induction m with
  | nil => simp [Store]
  | cons kv rest ih =>
    obtain ⟨k1, v1⟩ := kv
    by_cases hk : k1 = k
    · simp [Load, hk] at h
    · simp [Load, hk] at h
      simp [Store, hk, ih h]

theorem countP_allRequests_Store (P : requestHistory → Bool) (reg : Registry) (k : String)
    (reqs : List requestHistory) (e : requestHistory) (h : Load reg k = some reqs) :
    (allRequests (Store reg k (reqs ++ [e]))).countP P
      = (allRequests reg).countP P + if P e = true then 1 else 0 := by
  induction reg with
  | nil => simp [Load] at h
  | cons kv rest ih =>
    obtain ⟨k1, v1⟩ := kv
    by_cases hk : k1 = k
    · simp [Load, hk] at h
      subst h
      simp only [Store, hk, if_true, allRequests, List.flatMap_cons, List.countP_append,
        List.countP_cons, List.countP_nil]
      omega
    · simp [Load, hk] at h
      have h1 := ih h
      simp only [allRequests] at h1
      simp only [Store, hk, if_false, allRequests, List.flatMap_cons, List.countP_append, h1]
      omega

theorem recordLoop_subscribed (heap : List SubscribeOptions) (op : Option Nat)
    (hop : ∀ p, op = some p → p < heap.length) (t : String) (ht : isHeartbeat t = false) :
    ∀ (channels : List String) (reg : Registry), heartbeatsLast channels = true →
      SubscribedOnly heap reg →
      SubscribedOnly heap (recordLoop Subscribe op false channels reg)
        ∧ (allRequests (recordLoop Subscribe op false channels reg)).countP
            (fun r => decide (r.Channel = t))
          = (allRequests reg).countP (fun r => decide (r.Channel = t)) + channels.count t := by
  intro channels
  induction channels with
  | nil => intro reg _ hreg; simp [recordLoop, hreg]
  | cons c rest ih =>
    intro reg hlast hreg
    cases hload : Load reg c with
    | some reqs =>
      have hmem := Load_some_mem reg c reqs hload
      have hc : isHeartbeat c = false := (hreg _ hmem).1
      have hlast1 : heartbeatsLast rest = true := by simpa [heartbeatsLast, hc] using hlast
      have hreg1 : SubscribedOnly heap (Store reg c (reqs ++ [⟨c, Subscribe, op⟩])) := by
        intro kv hkv
        rcases mem_Store _ _ _ _ hkv with h | h
        · subst h
          refine ⟨hc, fun req hr => ?_⟩
          rcases List.mem_append.mp hr with h1 | h1
          · exact (hreg _ hmem).2 req h1
          · simp only [List.mem_singleton] at h1
            subst h1
            exact ⟨rfl, rfl, hop⟩
        · exact hreg kv h
      have h1 := ih _ hlast1 hreg1
      simp only [recordLoop, hload, Bool.false_eq_true, if_false]
      refine ⟨h1.1, ?_⟩
      rw [h1.2, countP_allRequests_Store _ reg c reqs _ hload, List.count_cons]
      by_cases hct : c = t
      · simp [hct]; omega
      · simp [hct]
    | none =>
      by_cases hc : isHeartbeat c = true
      · have hcond : (HasSuffix c ".ping" || HasSuffix c ".time") = true := hc
        simp only [recordLoop, hload, hcond, if_true]
        refine ⟨hreg, ?_⟩
        have hall : rest.all isHeartbeat = true := by simpa [heartbeatsLast, hc] using hlast
        have hnot : t ∉ c :: rest := by
          intro hmem
          rcases List.mem_cons.mp hmem with h | h
          · rw [h, hc] at ht; exact Bool.noConfusion ht
          · have := List.all_eq_true.mp hall t h
            rw [this] at ht; exact Bool.noConfusion ht
        rw [List.count_eq_zero.mpr hnot]
        rfl
      · have hc1 : isHeartbeat c = false := by simpa using hc
        have hcond : (HasSuffix c ".ping" || HasSuffix c ".time") = false := hc1
        have hlast1 : heartbeatsLast rest = true := by simpa [heartbeatsLast, hc1] using hlast
        have hst := Store_of_Load_none reg c [(⟨c, Subscribe, op⟩ : requestHistory)] hload
        have hreg1 : SubscribedOnly heap (Store reg c [⟨c, Subscribe, op⟩]) := by
          intro kv hkv
          rcases mem_Store _ _ _ _ hkv with h | h
          · subst h
            refine ⟨hc1, fun req hr => ?_⟩
            simp only [List.mem_singleton] at hr
            subst hr
            exact ⟨rfl, rfl, hop⟩
          · exact hreg kv h
        have h1 := ih _ hlast1 hreg1
        simp only [recordLoop, hload, hcond, Bool.false_eq_true, if_false]
        refine ⟨h1.1, ?_⟩
        rw [h1.2, hst, List.count_cons]
        simp only [allRequests, List.flatMap_append, List.flatMap_cons, List.flatMap_nil,
          List.append_nil, List.countP_append, List.countP_cons, List.countP_nil]
        by_cases hct : c = t
        · simp [hct]; omega
        · simp [hct]


theorem baseSubscribe_ok (wr : Nat → Bool) (m : String) (channels : List String)
    (op : Option Nat) (ws : WsService) (reg : Registry)
    (hreg : ws.conf.subscribeMsg = some reg)
    (hok : (ws.baseSubscribe wr m channels op).1 = Res.ok) :
    (ws.baseSubscribe wr m channels op).2.conf.subscribeMsg
        = some (recordLoop m op (isReConnect ws.heap op) channels reg)
      ∧ (ws.baseSubscribe wr m channels op).2.heap = ws.heap
      ∧ (ws.baseSubscribe wr m channels op).2.status = ws.status
      ∧ (ws.baseSubscribe wr m channels op).2.conf.MaxRetryConn = ws.conf.MaxRetryConn := by
  cases hw : wr ws.writes with
  | false =>
    simp [WsService.baseSubscribe, WsService.emit, WsService.WriteMessage, hw, writeErr] at hok
  | true =>
    simp [WsService.baseSubscribe, WsService.emit, WsService.WriteMessage, hw, hreg]

theorem perform_ok (auth : String → Bool) (wr : Nat → Bool) (c : Call) (ws : WsService)
    (reg : Registry) (hreg : ws.conf.subscribeMsg = some reg)
    (hflag : ∀ p, c.op = some p → (deref ws.heap p).IsReConnect = false)
    (hok : (ws.perform auth wr c).1 = Res.ok) :
    (ws.perform auth wr c).2.conf.subscribeMsg
        = some (recordLoop Subscribe c.op false c.channels reg)
      ∧ (ws.perform auth wr c).2.heap = ws.heap
      ∧ (ws.perform auth wr c).2.status = ws.status
      ∧ (ws.perform auth wr c).2.conf.MaxRetryConn = ws.conf.MaxRetryConn := by
  cases c with
  | Subscribe channels =>
    by_cases ha : (channels.any fun channel =>
        (decide (ws.conf.Key = "") || decide (ws.conf.Secret = "")) && auth channel) = true
    · simp [WsService.perform, WsService.Subscribe, ha, newAuthEmptyErr] at hok
    · simp only [WsService.perform, WsService.Subscribe, ha, if_false,
        WsService.newBaseChannel] at hok ⊢
      exact baseSubscribe_ok wr Subscribe channels none ws reg hreg hok
  | SubscribeWithOption channels op =>
    by_cases ha : (channels.any fun channel =>
        (decide (ws.conf.Key = "") || decide (ws.conf.Secret = "")) && auth channel) = true
    · simp [WsService.perform, WsService.SubscribeWithOption, ha, newAuthEmptyErr] at hok
    · simp only [WsService.perform, WsService.SubscribeWithOption, ha, if_false,
        WsService.newBaseChannel] at hok ⊢
      have h := baseSubscribe_ok wr Subscribe channels op ws reg hreg hok
      cases op with
      | none => exact h
      | some p =>
        have hf := hflag p rfl
        simp only [isReConnect, hf] at h
        exact h

theorem runCalls_subscribed (auth : String → Bool) (wr : Nat → Bool) (calls : List Call) :
    ∀ (ws : WsService) (reg : Registry), ws.conf.subscribeMsg = some reg →
      SubscribedOnly ws.heap reg →
      (∀ c ∈ calls, heartbeatsLast c.channels = true
        ∧ ∀ p, c.op = some p → p < ws.heap.length ∧ (deref ws.heap p).IsReConnect = false) →
      (∀ r ∈ (runCalls auth wr calls ws).1, r = Res.ok) →
      ∃ reg1, (runCalls auth wr calls ws).2.conf.subscribeMsg = some reg1
        ∧ SubscribedOnly ws.heap reg1
        ∧ (∀ t, isHeartbeat t = false →
          (allRequests reg1).countP (fun r => decide (r.Channel = t))
            = (allRequests reg).countP (fun r => decide (r.Channel = t))
              + (calls.map fun c => c.channels.count t).sum)
        ∧ (runCalls auth wr calls ws).2.heap = ws.heap
        ∧ (runCalls auth wr calls ws).2.status = ws.status
        ∧ (runCalls auth wr calls ws).2.conf.MaxRetryConn = ws.conf.MaxRetryConn := by
  induction calls with
  | nil =>
    intro ws reg hreg hsub _ _
    exact ⟨reg, hreg, hsub, fun t _ => by simp, rfl, rfl, rfl⟩
  | cons c rest ih =>
    intro ws reg hreg hsub hcalls hok
    have hc := hcalls c (List.mem_cons_self _ _)
    have hok1 : (ws.perform auth wr c).1 = Res.ok := hok _ (by simp [runCalls])
    have hp := perform_ok auth wr c ws reg hreg (fun p h => (hc.2 p h).2) hok1
    have hrec := fun t ht => recordLoop_subscribed ws.heap c.op (fun p h => (hc.2 p h).1) t ht
      c.channels reg hc.1 hsub
    obtain ⟨reg1, h1, h2, h3, h4, h5, h6⟩ := ih (ws.perform auth wr c).2 _ hp.1
      (by rw [hp.2.1]; exact (hrec "" (by decide)).1)
      (by rw [hp.2.1]; exact fun c1 hc1 => hcalls c1 (List.mem_cons_of_mem _ hc1))
      (fun r hr => hok r (by simp [runCalls, hr]))
    refine ⟨reg1, h1, ?_, ?_, ?_, ?_, ?_⟩
    · rw [hp.2.1] at h2; exact h2
    · intro t ht
      rw [h3 t ht, (hrec t ht).2]; simp [Nat.add_assoc]
    · rw [show (runCalls auth wr (c :: rest) ws).2
        = (runCalls auth wr rest (ws.perform auth wr c).2).2 from rfl, h4, hp.2.1]
    · rw [show (runCalls auth wr (c :: rest) ws).2
        = (runCalls auth wr rest (ws.perform auth wr c).2).2 from rfl, h5, hp.2.2.1]
    · rw [show (runCalls auth wr (c :: rest) ws).2
        = (runCalls auth wr rest (ws.perform auth wr c).2).2 from rfl, h6, hp.2.2.2]

theorem replayTrace_count (wr : Nat → Bool) (t : String) (reqs : List requestHistory) :
    ∀ (heap : List SubscribeOptions) (n : Nat),
      ((replayTrace wr reqs heap n).filter (namesTopic t)).length
        = reqs.countP fun r => decide (r.Channel = t) := by
  induction reqs with
  | nil => intro heap n; simp [replayTrace]
  | cons req rest ih =>
    intro heap n
    simp only [replayTrace, List.cons_append, List.nil_append, List.filter_cons, namesTopic,
      List.countP_cons, ih]
    by_cases h : req.Channel = t <;> simp [h, ih]

theorem replayTrace_command (wr : Nat → Bool) (reqs : List requestHistory) :
    ∀ (heap : List SubscribeOptions) (n : Nat) (m : String) (channels : List String)
      (op : Option SubscribeOptions),
      Event.command m channels op ∈ replayTrace wr reqs heap n →
      ∃ req ∈ reqs, m = req.Method ∧ channels = [req.Channel]
        ∧ ∃ o, op = some o ∧ o.IsReConnect = true := by
  induction reqs with
  | nil => intro heap n m channels op h; simp [replayTrace] at h
  | cons req rest ih =>
    intro heap n m channels op h
    simp only [replayTrace, List.cons_append, List.nil_append, List.mem_cons] at h
    rcases h with h | h | h | h | h
    · injection h with h1 h2 h3
      refine ⟨req, List.mem_cons_self _ _, h1, h2, markedOp heap req, h3, ?_⟩
      cases hop : req.op <;> simp [markedOp, hop]
    · cases h
    · cases h
    · cases h
    · obtain ⟨r, hr, h1⟩ := ih _ _ _ _ _ h
      exact ⟨r, List.mem_cons_of_mem _ hr, h1⟩

theorem dialFrom_events (dial : Nat → DialResult) (maxRetry : Int) (fuel : Nat) :
    ∀ (retry : Nat), ∀ e ∈ (dialFrom dial maxRetry fuel retry).2,
      (∃ b, e = Event.dial b) ∨ ∃ k : Nat, e = Event.sleep (backoff k) := by
  induction fuel with
  | zero => intro retry e h; simp [dialFrom] at h
  | succ fuel ih =>
    intro retry e h
    cases hd : dial retry with
    | conn c =>
      simp [dialFrom, hd] at h
      exact Or.inl ⟨true, h⟩
    | failed err =>
      by_cases hm : (retry : Int) ≥ maxRetry
      · simp [dialFrom, hd, hm] at h
        exact Or.inl ⟨false, h⟩
      · simp only [dialFrom, hd, hm, if_false, List.mem_cons] at h
        rcases h with h | h | h
        · exact Or.inl ⟨false, h⟩
        · exact Or.inr ⟨retry + 1, by rw [h]; norm_cast⟩
        · exact ih _ e h


theorem SubscribedOnly.wf {heap : List SubscribeOptions} {reg : Registry}
    (h : SubscribedOnly heap reg) : RegistryWF reg heap :=
  fun kv hkv req hreq => ⟨((h kv hkv).2 req hreq).1, ((h kv hkv).2 req hreq).2.2⟩

theorem reconnect_since (dial : Nat → DialResult) (wr : Nat → Bool)
    (visit : Registry → Registry) (ws : WsService)
    (reg : Registry) (c : Nat) (hreg : ws.conf.subscribeMsg = some reg)
    (hwf : RegistryWF reg ws.heap) (hvisit : (visit reg).Perm reg)
    (hst : ws.status ≠ status.reconnecting)
    (hd : (dialLoop dial ws.conf.MaxRetryConn).1 = DialResult.conn c) :
    (ws.reconnect dial wr visit).2.since ws =
      Event.clientMuLock :: ((if ws.Client.isSome = true then [Event.closeConn] else [])
        ++ Event.setStatus status.reconnecting :: ((dialLoop dial ws.conf.MaxRetryConn).2
        ++ Event.setStatus status.connected
          :: (replayTrace wr (allRequests (visit reg)) ws.heap ws.writes
        ++ [Event.clientMuUnlock]))) := by
  rw [reconnect_eq dial wr visit ws reg c hreg hwf hvisit hst hd]
  simp only [WsService.since]
  exact List.drop_left _ _

theorem dialLoop_no_command (dial : Nat → DialResult) (maxRetry : Int) (m : String)
    (channels : List String) (op : Option SubscribeOptions) :
    Event.command m channels op ∉ (dialLoop dial maxRetry).2 := by
  intro h
  rcases dialFrom_events dial maxRetry _ _ _ h with ⟨b, hb⟩ | ⟨k, hk⟩
  · cases hb
  · cases hk

/-! ## C1: what the replay issues after subscribe calls -/

/-- C1 as amended: on a session with an empty registry, after any sequence of successful
`Subscribe` and `SubscribeWithOption` calls (options not marked as a replay, and in each
call no other channel after a heartbeat channel) and a reconnect whose dial succeeds,
whatever the outcomes of the replay writes and the order of the replay, every command the
replay issues is a subscribe command for one single non-heartbeat channel with
`IsReConnect` true, and for every non-heartbeat topic the number of commands naming it
equals the number of times the calls subscribed it: exactly one when it was subscribed
once. -/
theorem replay_after_subscribe (auth : String → Bool) (wr : Nat → Bool)
    (dial : Nat → DialResult) (visit : Registry → Registry) (calls : List Call)
    (ws : WsService) (c : Nat)
    (hreg : ws.conf.subscribeMsg = some [])
    (hvisit : ∀ reg, (visit reg).Perm reg)
    (hst : ws.status ≠ status.reconnecting)
    (hcalls : ∀ call ∈ calls, heartbeatsLast call.channels = true
      ∧ ∀ p, call.op = some p → p < ws.heap.length ∧ (deref ws.heap p).IsReConnect = false)
    (hok : ∀ r ∈ (runCalls auth wr calls ws).1, r = Res.ok)
    (hd : (dialLoop dial ws.conf.MaxRetryConn).1 = DialResult.conn c) :
    (∀ m channels op,
        Event.command m channels op
          ∈ ((runCalls auth wr calls ws).2.reconnect dial wr visit).2.since
              (runCalls auth wr calls ws).2 →
        m = Subscribe ∧ ∃ t o, channels = [t] ∧ isHeartbeat t = false
          ∧ op = some o ∧ o.IsReConnect = true)
      ∧ ∀ t, isHeartbeat t = false →
        ((((runCalls auth wr calls ws).2.reconnect dial wr visit).2.since
            (runCalls auth wr calls ws).2).filter (namesTopic t)).length
          = (calls.map fun call => call.channels.count t).sum := by
  obtain ⟨reg1, h1, hsub, hcount, hheap, hstat, hmax⟩ :=
    runCalls_subscribed auth wr calls ws [] hreg (fun kv hkv => by simp at hkv) hcalls hok
  rw [← hheap] at hsub
  have hsince := reconnect_since dial wr visit (runCalls auth wr calls ws).2 reg1 c h1 hsub.wf
    (hvisit reg1) (by rw [hstat]; exact hst) (by rw [hmax]; exact hd)
  rw [hsince]
  constructor
  · intro m channels op hmem
    have hrep : Event.command m channels op
        ∈ replayTrace wr (allRequests (visit reg1)) (runCalls auth wr calls ws).2.heap
            (runCalls auth wr calls ws).2.writes := by
      have hno := dialLoop_no_command dial (runCalls auth wr calls ws).2.conf.MaxRetryConn m
        channels op
      have hno2 : Event.command m channels op
          ∉ (if (runCalls auth wr calls ws).2.Client.isSome = true
              then [Event.closeConn] else []) := by
        split <;> simp
      simp only [List.mem_cons, List.mem_append, hno, hno2, false_or] at hmem
      simpa using hmem
    obtain ⟨req, hreq, hm, hch, o, ho, hflag⟩ := replayTrace_command wr _ _ _ _ _ _ hrep
    obtain ⟨kv, hkv0, hin⟩ := List.mem_flatMap.mp hreq
    have hkv := (hvisit reg1).mem_iff.mp hkv0
    have hg := hsub kv hkv
    have hr := hg.2 req hin
    refine ⟨by rw [hm, hr.2.1], req.Channel, o, hch, ?_, ho, hflag⟩
    rw [hr.1]; exact hg.1
  · intro t ht
    have hdial : ((dialLoop dial (runCalls auth wr calls ws).2.conf.MaxRetryConn).2.filter
        (namesTopic t)) = [] := by
      rw [List.filter_eq_nil_iff]
      intro e he
      rcases dialFrom_events dial _ _ _ e he with ⟨b, hb⟩ | ⟨k, hk⟩
      · rw [hb]; simp [namesTopic]
      · rw [hk]; simp [namesTopic]
    have hclose : ((if (runCalls auth wr calls ws).2.Client.isSome = true
        then [Event.closeConn] else []).filter (namesTopic t)) = [] := by
      split <;> simp [namesTopic]
    simp only [List.filter_cons, List.filter_append, namesTopic, hdial, hclose,
      Bool.false_eq_true, if_false, List.nil_append, List.filter_nil, List.append_nil,
      replayTrace_count]
    have hperm : (allRequests (visit reg1)).countP (fun r => decide (r.Channel = t))
        = (allRequests reg1).countP (fun r => decide (r.Channel = t)) :=
      List.Perm.countP_eq _ (List.Perm.flatMap_right _ (hvisit reg1))
    rw [hperm]
    simpa [allRequests] using hcount t ht

/-- C1 refuted as stated: after `Subscribe(["ticker@btc_usdt"])` twice, both successful,
the replay of one successful reconnect issues two commands naming `ticker@btc_usdt`, not
one: every recorded request is replayed. -/
theorem replay_issues_one_command_per_request :
    (runCalls authChannel writesOk
        [Call.Subscribe ["ticker@btc_usdt"], Call.Subscribe ["ticker@btc_usdt"]]
        freshSession).1 = [Res.ok, Res.ok]
      ∧ ((((runCalls authChannel writesOk
          [Call.Subscribe ["ticker@btc_usdt"], Call.Subscribe ["ticker@btc_usdt"]]
          freshSession).2.reconnect dialOk writesOk id).2.since
          (runCalls authChannel writesOk
            [Call.Subscribe ["ticker@btc_usdt"], Call.Subscribe ["ticker@btc_usdt"]]
            freshSession).2).filter (namesTopic "ticker@btc_usdt")).length = 2 := by
  decide

theorem replay_after_subscribe_witness :
    (runCalls authChannel writesOk [Call.Subscribe ["ticker@btc_usdt"]] freshSession).1
        = [Res.ok]
      ∧ ((((runCalls authChannel writesOk [Call.Subscribe ["ticker@btc_usdt"]]
          freshSession).2.reconnect dialOk writesOk id).2.since
          (runCalls authChannel writesOk [Call.Subscribe ["ticker@btc_usdt"]]
            freshSession).2).filter (namesTopic "ticker@btc_usdt")).length = 1
      ∧ ((((runCalls authChannel writesOk [Call.Subscribe ["ticker@btc_usdt"]]
          freshSession).2.reconnect dialOk writesOk id).2.since
          (runCalls authChannel writesOk [Call.Subscribe ["ticker@btc_usdt"]]
            freshSession).2).filter
          (writesFrame "\x7b\"method\":\"subscribe\",\"params\":[\"ticker@btc_usdt\"]\x7d")).length
        = 1 :=
  ⟨by decide,
    ((replay_after_subscribe authChannel writesOk dialOk id [Call.Subscribe ["ticker@btc_usdt"]]
      freshSession 1 (by decide) (fun _ => List.Perm.refl _) (by decide)
      (by
        intro call hc
        simp only [List.mem_singleton] at hc
        subst hc
        exact ⟨by decide, fun p hp => by simp [Call.op] at hp⟩)
      (by decide) (by decide)).2 "ticker@btc_usdt" (by decide)).trans (by decide),
    by decide⟩

/-! ## C4: the dial loop -/

theorem backoff_exact (n : Nat) (h : n ≤ 18446744073) : backoff n = (n : Int) * 500000000 := by
  have h63 : (2 : Int) ^ 63 = 9223372036854775808 := by norm_num
  have h64 : (2 : Int) ^ 64 = 18446744073709551616 := by norm_num
  simp only [backoff, wrapInt64, h63, h64]
  omega

theorem retryEvents_succ (n : Nat) :
    ∀ retry : Nat, retryEvents retry (n + 1)
      = retryEvents retry n
        ++ [Event.dial false, Event.sleep (backoff ((retry : Int) + n + 1))] := by
  induction n with
  | zero => intro retry; simp [retryEvents]
  | succ n ih =>
    intro retry
    have hcast : ((retry + 1 : Nat) : Int) + (n : Int) + 1
        = (retry : Int) + ((n + 1 : Nat) : Int) + 1 := by
      push_cast; ring
    rw [retryEvents, ih (retry + 1), hcast]
    simp [retryEvents]

theorem dialFrom_conn (dial : Nat → DialResult) (maxRetry : Int) (c : Nat) (k : Nat) :
    ∀ (fuel retry : Nat), k < fuel → ((retry + k : Nat) : Int) ≤ maxRetry →
      (∀ j, j < k → ∃ e, dial (retry + j) = DialResult.failed e) →
      dial (retry + k) = DialResult.conn c →
      dialFrom dial maxRetry fuel retry
        = (DialResult.conn c, retryEvents retry k ++ [Event.dial true]) := by
  induction k with
  | zero =>
    intro fuel retry hf _ _ hc
    obtain ⟨f, rfl⟩ : ∃ f, fuel = f + 1 := ⟨fuel - 1, by omega⟩
    simp only [Nat.add_zero] at hc
    simp [dialFrom, hc, retryEvents]
  | succ k ih =>
    intro fuel retry hf hm hfail hc
    obtain ⟨f, rfl⟩ : ∃ f, fuel = f + 1 := ⟨fuel - 1, by omega⟩
    obtain ⟨e, he⟩ := hfail 0 (by omega)
    simp only [Nat.add_zero] at he
    have hlt : ¬ ((retry : Int) ≥ maxRetry) := by push_cast at hm; omega
    have h1 := ih f (retry + 1) (by omega) (by push_cast at hm ⊢; omega)
      (fun j hj => by
        have := hfail (j + 1) (by omega)
        rwa [show retry + (j + 1) = retry + 1 + j by omega] at this)
      (by rwa [show retry + (k + 1) = retry + 1 + k by omega] at hc)
    simp [dialFrom, he, hlt, h1, retryEvents]

theorem dialFrom_failed (dial : Nat → DialResult) (maxRetry : Int) (e : String) (k : Nat) :
    ∀ (fuel retry : Nat), k < fuel → ((retry + k : Nat) : Int) = maxRetry →
      (∀ j, j < k → ∃ e1, dial (retry + j) = DialResult.failed e1) →
      dial (retry + k) = DialResult.failed e →
      dialFrom dial maxRetry fuel retry
        = (DialResult.failed e, retryEvents retry k ++ [Event.dial false]) := by
  induction k with
  | zero =>
    intro fuel retry hf hm _ hc
    obtain ⟨f, rfl⟩ : ∃ f, fuel = f + 1 := ⟨fuel - 1, by omega⟩
    simp only [Nat.add_zero] at hc hm
    have hge : (retry : Int) ≥ maxRetry := by omega
    simp [dialFrom, hc, retryEvents, hge]
  | succ k ih =>
    intro fuel retry hf hm hfail hc
    obtain ⟨f, rfl⟩ : ∃ f, fuel = f + 1 := ⟨fuel - 1, by omega⟩
    obtain ⟨e0, he⟩ := hfail 0 (by omega)
    simp only [Nat.add_zero] at he
    have hlt : ¬ ((retry : Int) ≥ maxRetry) := by push_cast at hm; omega
    have h1 := ih f (retry + 1) (by omega) (by push_cast at hm ⊢; omega)
      (fun j hj => by
        have := hfail (j + 1) (by omega)
        rwa [show retry + (j + 1) = retry + 1 + j by omega] at this)
      (by rwa [show retry + (k + 1) = retry + 1 + k by omega] at hc)
    simp [dialFrom, he, hlt, h1, retryEvents]

/-- C4 as amended: for a maximum retry count `M ≥ 0` and any dial outcomes, the dial loop
(the one loop of `NewWsService` and of `reconnect`, started with `retry = 0` in every
episode) returns the connection of the first successful attempt when one of the first
`M + 1` attempts succeeds, and the error of attempt `M + 1` when they all fail, so it fails
exactly when the first `M + 1` attempts all fail; its events are the failed attempts, the
n-th of them followed by a sleep of `backoff n`, then the last attempt. The sleep
`backoff n` is exactly n times 500 ms (in nanoseconds) for n up to 18446744073. -/
theorem dialLoop_outcome (dial : Nat → DialResult) (M : Int) (hM : 0 ≤ M) :
    (∀ k c : Nat, (k : Int) ≤ M → (∀ j, j < k → ∃ e, dial j = DialResult.failed e) →
        dial k = DialResult.conn c →
        dialLoop dial M = (DialResult.conn c, retryEvents 0 k ++ [Event.dial true]))
      ∧ (∀ e, (∀ j, j < M.toNat → ∃ e1, dial j = DialResult.failed e1) →
        dial M.toNat = DialResult.failed e →
        dialLoop dial M = (DialResult.failed e, retryEvents 0 M.toNat ++ [Event.dial false]))
      ∧ ((∃ e, (dialLoop dial M).1 = DialResult.failed e)
        ↔ ∀ j : Nat, (j : Int) ≤ M → ∃ e, dial j = DialResult.failed e)
      ∧ ∀ n : Nat, n ≤ 18446744073 → backoff n = (n : Int) * 500000000 := by
  have hA : ∀ k c : Nat, (k : Int) ≤ M → (∀ j, j < k → ∃ e, dial j = DialResult.failed e) →
      dial k = DialResult.conn c →
      dialLoop dial M = (DialResult.conn c, retryEvents 0 k ++ [Event.dial true]) := by
    intro k c hk hfail hc
    exact dialFrom_conn dial M c k _ 0 (by omega) (by simpa using hk)
      (fun j hj => by simpa using hfail j hj) (by simpa using hc)
  have hB : ∀ e, (∀ j, j < M.toNat → ∃ e1, dial j = DialResult.failed e1) →
      dial M.toNat = DialResult.failed e →
      dialLoop dial M = (DialResult.failed e, retryEvents 0 M.toNat ++ [Event.dial false]) := by
    intro e hfail hc
    exact dialFrom_failed dial M e M.toNat _ 0 (by omega) (by simp; omega)
      (fun j hj => by simpa using hfail j hj) (by simpa using hc)
  refine ⟨hA, hB, ⟨?_, ?_⟩, backoff_exact⟩
  · rintro ⟨e, he⟩
    by_contra hcon
    have hex : ∃ k : Nat, ¬ ((k : Int) ≤ M → ∃ e, dial k = DialResult.failed e) := by
      by_contra h
      exact hcon fun j hj => by
        by_contra h2
        exact h ⟨j, fun h3 => h2 (h3 hj)⟩
    classical
    have hspec := Nat.find_spec hex
    have hk : ((Nat.find hex : Nat) : Int) ≤ M := by
      by_contra h; exact hspec fun h1 => absurd h1 h
    have hnf : ¬ ∃ e, dial (Nat.find hex) = DialResult.failed e := fun h => hspec fun _ => h
    cases hc : dial (Nat.find hex) with
    | failed e1 => exact hnf ⟨e1, hc⟩
    | conn c =>
      have hbefore : ∀ j, j < Nat.find hex → ∃ e, dial j = DialResult.failed e := by
        intro j hj
        have hj2 := Nat.find_min hex hj
        have hjM : (j : Int) ≤ M := by omega
        exact (not_not.mp hj2) hjM
      rw [hA _ c hk hbefore hc] at he
      cases he
  · intro hall
    obtain ⟨e, he⟩ := hall M.toNat (by omega)
    exact ⟨e, by rw [hB e (fun j hj => hall j (by omega)) he]⟩

theorem dialLoop_outcome_witness :
    dialLoop dialThird 5
      = (DialResult.conn 7,
          [Event.dial false, Event.sleep 500000000, Event.dial false, Event.sleep 1000000000,
            Event.dial true]) :=
  ((dialLoop_outcome dialThird 5 (by decide)).1 2 7 (by decide)
    (fun j hj => ⟨"refused", by
      have h : j = 0 ∨ j = 1 := by omega
      rcases h with h | h <;> subst h <;> rfl⟩) rfl).trans (by decide)

/-- C4 refuted as stated: with a maximum retry count of 18446744074 and a server that
refuses every dial, the failed attempt number 18446744074 is followed by a sleep of
-9223372036709551616 ns (`time.Sleep` returns at once), not of 18446744074 times 500 ms:
the int64 `time.Duration` has wrapped around. -/
theorem dialLoop_backoff_wraps :
    dialLoop dialRefused 18446744074
        = (DialResult.failed "refused",
            retryEvents 0 18446744073
              ++ [Event.dial false, Event.sleep (-9223372036709551616), Event.dial false])
      ∧ (-9223372036709551616 : Int) ≠ 18446744074 * 500000000 := by
  constructor
  · have h := dialFrom_failed dialRefused 18446744074 "refused" 18446744074 18446744075 0
      (by decide) (by decide) (fun j _ => ⟨"refused", rfl⟩) rfl
    have hb : backoff (((0 : Nat) : Int) + ((18446744073 : Nat) : Int) + 1)
        = -9223372036709551616 := by decide
    rw [retryEvents_succ 18446744073 0, hb] at h
    simpa [dialLoop] using h
  · decide

/-! ## C5: calls without credentials -/

/-- C5: for every auth table and every session whose key or secret is empty, whatever its
`loginOnce` state: `Subscribe` and `SubscribeWithOption` with an auth-required channel in
the list return the error `auth key or secret empty` and leave the session as it was;
`APIRequest` on an auth-required channel returns the same error, makes no call of
`WriteMessage` (the only event it may add is the entry into `login`), and leaves the
configuration, hence the registry and the empty credentials, and the heap unchanged, so
the same holds at every later call. -/
theorem auth_missing_calls (auth : String → Bool) (wr : Nat → Bool) (ws : WsService)
    (hcred : ws.conf.Key = "" ∨ ws.conf.Secret = "") :
    (∀ channels : List String, (∃ channel ∈ channels, auth channel = true) →
        ws.Subscribe auth wr channels = (Res.err "auth key or secret empty", ws))
      ∧ (∀ (channels : List String) (op : Option Nat),
        (∃ channel ∈ channels, auth channel = true) →
        ws.SubscribeWithOption auth wr channels op = (Res.err "auth key or secret empty", ws))
      ∧ ∀ (channel : String) (keyVals : List (String × GoAny)), auth channel = true →
        (ws.APIRequest auth wr channel keyVals).1 = Res.err "auth key or secret empty"
          ∧ (ws.APIRequest auth wr channel keyVals).2.writes = ws.writes
          ∧ (ws.APIRequest auth wr channel keyVals).2.trace
            = ws.trace ++ (if ws.loginOnce = true then [] else [Event.loginCall])
          ∧ (ws.APIRequest auth wr channel keyVals).2.conf = ws.conf
          ∧ (ws.APIRequest auth wr channel keyVals).2.heap = ws.heap := by
  have hb : (decide (ws.conf.Key = "") || decide (ws.conf.Secret = "")) = true := by
    rcases hcred with h | h <;> simp [h]
  refine ⟨?_, ?_, ?_⟩
  · rintro channels ⟨channel, hmem, ha⟩
    have hany : (channels.any fun channel =>
        (decide (ws.conf.Key = "") || decide (ws.conf.Secret = "")) && auth channel) = true :=
      List.any_eq_true.mpr ⟨channel, hmem, by simp [hb, ha]⟩
    simp [WsService.Subscribe, hany, newAuthEmptyErr]
  · rintro channels op ⟨channel, hmem, ha⟩
    have hany : (channels.any fun channel =>
        (decide (ws.conf.Key = "") || decide (ws.conf.Secret = "")) && auth channel) = true :=
      List.any_eq_true.mpr ⟨channel, hmem, by simp [hb, ha]⟩
    simp [WsService.SubscribeWithOption, hany, newAuthEmptyErr]
  · intro channel keyVals ha
    cases hl : ws.loginOnce with
    | true => simp [WsService.APIRequest, hl, hb, ha, newAuthEmptyErr]
    | false =>
      simp [WsService.APIRequest, hl, WsService.login, hcred, newAuthEmptyErr, WsService.emit]

theorem auth_missing_calls_witness :
    freshSession.Subscribe authOrders writesOk ["ticker@btc_usdt", "futures.orders"]
        = (Res.err "auth key or secret empty", freshSession)
      ∧ (freshSession.APIRequest authOrders writesOk "futures.orders" []).1
        = Res.err "auth key or secret empty"
      ∧ (freshSession.APIRequest authOrders writesOk "futures.orders" []).2.writes = 0 :=
  ⟨(auth_missing_calls authOrders writesOk freshSession (Or.inl rfl)).1
      ["ticker@btc_usdt", "futures.orders"] ⟨"futures.orders", by decide, by decide⟩,
    ((auth_missing_calls authOrders writesOk freshSession (Or.inl rfl)).2.2
      "futures.orders" [] (by decide)).1,
    ((auth_missing_calls authOrders writesOk freshSession (Or.inl rfl)).2.2
      "futures.orders" [] (by decide)).2.1⟩

/-! ## C6: the frame of an authenticated request -/

theorem marshalRequest_ne_marshalAPIReq (req : Request) (r : APIReq) :
    marshalRequest req ≠ marshalAPIReq r := by
  intro h
  have h1 := congrArg String.data h
  by_cases hid : req.Id = ""
  · simp [marshalRequest, marshalAPIReq, hid, String.data_append] at h1
  · simp [marshalRequest, marshalAPIReq, hid, String.data_append] at h1

/-- C6, evaluated: on a session with key `k` and secret `s` the first
`APIRequest("spot.order_place", params)` succeeds and writes two frames, the login request
and then `{"method":"spot.order_place","params":["spot.order_place"]}`: the plain request
that `apiRequest` builds from the channel alone. The frame has none of the fields
`api_key`, `signature`, `timestamp`, `req_id`, `req_header`, `req_param`; it is the
encoding of no `APIReq` at all, and `generateAPIRequest` is not called. -/
theorem APIRequest_writes_plain_request :
    (keyedSession.APIRequest authChannel writesOk "spot.order_place"
        [("symbol", GoAny.str "btc_usdt")]).1 = Res.ok
      ∧ (keyedSession.APIRequest authChannel writesOk "spot.order_place"
          [("symbol", GoAny.str "btc_usdt")]).2.trace
        = [Event.loginCall, Event.muLock,
            Event.write "\x7b\"method\":\"spot.login\",\"params\":[\"spot.login\"]\x7d" true,
            Event.muUnlock, Event.muLock,
            Event.write
              "\x7b\"method\":\"spot.order_place\",\"params\":[\"spot.order_place\"]\x7d" true,
            Event.muUnlock]
      ∧ ∀ r : APIReq,
        "\x7b\"method\":\"spot.order_place\",\"params\":[\"spot.order_place\"]\x7d"
          ≠ marshalAPIReq r := by
  refine ⟨by decide, by decide, fun r => ?_⟩
  have h := marshalRequest_ne_marshalAPIReq ⟨"", "spot.order_place", ["spot.order_place"]⟩ r
  have he : marshalRequest ⟨"", "spot.order_place", ["spot.order_place"]⟩
      = "\x7b\"method\":\"spot.order_place\",\"params\":[\"spot.order_place\"]\x7d" := by
    decide
  rwa [he] at h

/-! ## C7: writes and the write lock -/

theorem baseSubscribe_since (wr : Nat → Bool) (m : String) (channels : List String)
    (op : Option Nat) (ws : WsService) :
    (ws.baseSubscribe wr m channels op).2.since ws
      = [Event.command m channels (op.map (deref ws.heap)), Event.muLock,
          Event.write (marshalRequest
            { Id := match op with
                | some p => (deref ws.heap p).ID
                | none => "",
              Method := m, Params := channels }) (wr ws.writes),
          Event.muUnlock] := by
  have h : ∀ (l : List Event) (a b c d : Event),
      List.drop l.length (l ++ [a] ++ [b] ++ [c] ++ [d]) = [a, b, c, d] := by
    intro l a b c d
    simp
  cases hw : wr ws.writes with
  | false =>
    simp [WsService.baseSubscribe, WsService.emit, WsService.WriteMessage, hw,
      WsService.since]
  | true =>
    cases hreg : ws.conf.subscribeMsg with
    | none =>
      by_cases hc : channels = []
      · simp [WsService.baseSubscribe, WsService.emit, WsService.WriteMessage, hw, hreg, hc,
          WsService.since]
      · simp [WsService.baseSubscribe, WsService.emit, WsService.WriteMessage, hw, hreg, hc,
          WsService.since]
    | some reg =>
      simp [WsService.baseSubscribe, WsService.emit, WsService.WriteMessage, hw, hreg,
        WsService.since]

theorem apiRequest_since (wr : Nat → Bool) (channel : String)
    (keyVals : List (String × GoAny)) (ws : WsService) :
    (ws.apiRequest wr channel keyVals).2.since ws
      = [Event.muLock,
          Event.write (marshalRequest { Id := "", Method := channel, Params := [channel] })
            (wr ws.writes),
          Event.muUnlock] := by
  simp [WsService.apiRequest, WsService.emit, WsService.WriteMessage, WsService.since]

/-- C7, evaluated at the heartbeat: one tick of `activePing` on a connected session writes
the frame `ping` and performs no other event, so the write happens without `ws.mu` held;
`baseSubscribe` and `apiRequest` do take the lock around their write. -/
theorem activePing_writes_without_lock :
    (freshSession.activePing writesOk).trace = [Event.write "ping" true]
      ∧ writesUnderLock false (freshSession.activePing writesOk).trace = false
      ∧ (∀ (wr : Nat → Bool) (m : String) (channels : List String) (op : Option Nat)
          (ws : WsService),
          writesUnderLock false ((ws.baseSubscribe wr m channels op).2.since ws) = true)
      ∧ ∀ (wr : Nat → Bool) (channel : String) (keyVals : List (String × GoAny))
          (ws : WsService),
          writesUnderLock false ((ws.apiRequest wr channel keyVals).2.since ws) = true := by
  refine ⟨by decide, by decide, ?_, ?_⟩
  · intro wr m channels op ws
    rw [baseSubscribe_since]
    simp [writesUnderLock]
  · intro wr channel keyVals ws
    rw [apiRequest_since]
    simp [writesUnderLock]

/-! ## C8: one pass of the reader loop -/

/-- C8: for every decoder, handler table and inbound frame, one pass of the reader loop
over the frame goes on to the next pass and invokes at most one handler. When the frame is
not the literal `pong`, decodes, has a non-empty topic and a handler is registered for the
topic, the pass invokes that handler once with the raw frame and does nothing else; when
the frame is `pong`, does not decode, has an empty topic or no handler is registered for
the topic, the pass does nothing at all. -/
theorem readMsgPass_dispatch (unmarshal : List UInt8 → Option UpdateMsg)
    (dial : Nat → DialResult) (wr : Nat → Bool) (visit : Registry → Registry)
    (ws : WsService) (rawMsg : List UInt8) :
    (ws.readMsgPass unmarshal dial wr visit (some rawMsg)).1 = true
      ∧ ((ws.readMsgPass unmarshal dial wr visit (some rawMsg)).2 = ws
        ∨ ∃ call, (ws.readMsgPass unmarshal dial wr visit (some rawMsg)).2
            = ws.emit (Event.invoke call rawMsg))
      ∧ (∀ msg call, rawMsg ≠ asciiBytes "pong" → unmarshal rawMsg = some msg → msg.Topic ≠ "" →
          Load ws.calls msg.Topic = some call →
          (ws.readMsgPass unmarshal dial wr visit (some rawMsg)).2
            = ws.emit (Event.invoke call rawMsg))
      ∧ ((rawMsg = asciiBytes "pong" ∨ unmarshal rawMsg = none
            ∨ ∃ msg, unmarshal rawMsg = some msg
              ∧ (msg.Topic = "" ∨ Load ws.calls msg.Topic = none)) →
          (ws.readMsgPass unmarshal dial wr visit (some rawMsg)).2 = ws) := by
  by_cases hp : rawMsg = asciiBytes "pong"
  · simp [WsService.readMsgPass, hp]
  · cases hu : unmarshal rawMsg with
    | none => simp [WsService.readMsgPass, hp, hu]
    | some msg =>
      by_cases ht : msg.Topic = ""
      · have hr : ws.readMsgPass unmarshal dial wr visit (some rawMsg) = (true, ws) := by
          simp [WsService.readMsgPass, hp, hu, ht]
        rw [hr]
        refine ⟨rfl, Or.inl rfl, ?_, fun _ => rfl⟩
        intro msg1 call _ h1 h2 _
        rw [Option.some.inj h1] at ht
        exact absurd ht h2
      · cases hl : Load ws.calls msg.Topic with
        | none =>
          have hr : ws.readMsgPass unmarshal dial wr visit (some rawMsg) = (true, ws) := by
            simp [WsService.readMsgPass, hp, hu, ht, hl]
          rw [hr]
          refine ⟨rfl, Or.inl rfl, ?_, fun _ => rfl⟩
          intro msg1 call _ h1 _ h3
          rw [Option.some.inj h1] at hl
          rw [hl] at h3
          cases h3
        | some call =>
          have hr : ws.readMsgPass unmarshal dial wr visit (some rawMsg)
              = (true, ws.emit (Event.invoke call rawMsg)) := by
            simp [WsService.readMsgPass, hp, hu, ht, hl]
          rw [hr]
          refine ⟨rfl, Or.inr ⟨call, rfl⟩, ?_, ?_⟩
          · intro msg1 call1 _ h1 _ h3
            rw [Option.some.inj h1] at hl
            rw [hl] at h3
            rw [Option.some.inj h3]
          · rintro (h | h | ⟨msg1, h1, h2 | h2⟩)
            · exact absurd h hp
            · cases h
            · rw [Option.some.inj h1] at ht
              exact absurd h2 ht
            · rw [Option.some.inj h1] at hl
              rw [hl] at h2
              cases h2

theorem readMsgPass_dispatch_witness :
    ((freshSession.SetCallBack "ticker@btc_usdt" (some 3)).readMsgPass unmarshalTicker dialOk
        writesOk id (some (asciiBytes
          "\x7b\"topic\":\"ticker@btc_usdt\",\"event\":\"ticker\"\x7d"))).2
      = (freshSession.SetCallBack "ticker@btc_usdt" (some 3)).emit
          (Event.invoke 3 (asciiBytes
            "\x7b\"topic\":\"ticker@btc_usdt\",\"event\":\"ticker\"\x7d")) :=
  (readMsgPass_dispatch unmarshalTicker dialOk writesOk id
    (freshSession.SetCallBack "ticker@btc_usdt" (some 3))
    (asciiBytes "\x7b\"topic\":\"ticker@btc_usdt\",\"event\":\"ticker\"\x7d")).2.2.1
    { Topic := "ticker@btc_usdt", Event := "ticker" } 3 (by decide) (by decide) (by decide)
    (by decide)

/-! ## C9: the login handshake -/

/-- C9, evaluated: on a session with credentials, with `futures.orders` auth-required and
a socket whose first write fails, the first `APIRequest("futures.orders")` runs `login`,
whose frame is not written, and returns the write error; the second call does not run
`login` again, writes the request frame for `futures.orders` and returns nil, although no
login frame was ever written without error. -/
theorem APIRequest_after_failed_login :
    (keyedSession.APIRequest authOrders writesFailFirst "futures.orders" []).1
        = Res.err "write failed"
      ∧ ((keyedSession.APIRequest authOrders writesFailFirst "futures.orders" []).2.APIRequest
          authOrders writesFailFirst "futures.orders" []).1 = Res.ok
      ∧ ((keyedSession.APIRequest authOrders writesFailFirst "futures.orders" []).2.APIRequest
          authOrders writesFailFirst "futures.orders" []).2.trace
        = [Event.loginCall, Event.muLock,
            Event.write "\x7b\"method\":\"spot.login\",\"params\":[\"spot.login\"]\x7d" false,
            Event.muUnlock, Event.muLock,
            Event.write
              "\x7b\"method\":\"futures.orders\",\"params\":[\"futures.orders\"]\x7d" true,
            Event.muUnlock] := by
  decide

/-! ## C10: the status during a reconnect -/

theorem baseSubscribe_effect (wr : Nat → Bool) (m : String) (channels : List String)
    (op : Option Nat) (ws : WsService) :
    (ws.baseSubscribe wr m channels op).2.trace
        = ws.trace ++ [Event.command m channels (op.map (deref ws.heap)), Event.muLock,
          Event.write (marshalRequest
            { Id := match op with
                | some p => (deref ws.heap p).ID
                | none => "",
              Method := m, Params := channels }) (wr ws.writes),
          Event.muUnlock]
      ∧ (ws.baseSubscribe wr m channels op).2.status = ws.status
      ∧ (ws.conf.subscribeMsg.isSome = true →
        (ws.baseSubscribe wr m channels op).2.conf.subscribeMsg.isSome = true
          ∧ (ws.baseSubscribe wr m channels op).1 ≠ Res.panicked) := by
  cases hw : wr ws.writes with
  | false =>
    simp [WsService.baseSubscribe, WsService.emit, WsService.WriteMessage, hw, writeErr]
  | true =>
    cases hreg : ws.conf.subscribeMsg with
    | none =>
      by_cases hc : channels = []
      · simp [WsService.baseSubscribe, WsService.emit, WsService.WriteMessage, hw, hreg, hc]
      · simp [WsService.baseSubscribe, WsService.emit, WsService.WriteMessage, hw, hreg, hc]
    | some reg =>
      simp [WsService.baseSubscribe, WsService.emit, WsService.WriteMessage, hw, hreg]

theorem replayEntries_effect (wr : Nat → Bool) (reqs : List requestHistory) :
    ∀ ws : WsService, ws.conf.subscribeMsg.isSome = true →
      ∃ evs, (replayEntries wr reqs ws).2.trace = ws.trace ++ evs
        ∧ (replayEntries wr reqs ws).2.status = ws.status
        ∧ (replayEntries wr reqs ws).2.conf.subscribeMsg.isSome = true
        ∧ (replayEntries wr reqs ws).1 ≠ Res.panicked
        ∧ (∀ s, Event.setStatus s ∉ evs)
        ∧ (evs.filter isWrite).length = reqs.length := by
  induction reqs with
  | nil =>
    intro ws h
    exact ⟨[], by simp [replayEntries], rfl, h, by simp [replayEntries], by simp, rfl⟩
  | cons req rest ih =>
    intro ws h
    have hentry : ∃ ev4, (replayEntry wr req ws).2.trace = ws.trace ++ ev4
        ∧ (replayEntry wr req ws).2.status = ws.status
        ∧ (replayEntry wr req ws).2.conf.subscribeMsg.isSome = true
        ∧ (replayEntry wr req ws).1 ≠ Res.panicked
        ∧ (∀ s, Event.setStatus s ∉ ev4)
        ∧ (ev4.filter isWrite).length = 1 := by
      cases hop : req.op with
      | none =>
        have hb := baseSubscribe_effect wr req.Method [req.Channel] (some ws.heap.length)
          { ws with heap := ws.heap ++ [{ ID := "", IsReConnect := true }] }
        simp only [replayEntry, hop]
        exact ⟨_, hb.1, hb.2.1, (hb.2.2 h).1, (hb.2.2 h).2, by simp, by simp [isWrite]⟩
      | some p =>
        have hb := baseSubscribe_effect wr req.Method [req.Channel] (some p)
          { ws with heap := ws.heap.set p { deref ws.heap p with IsReConnect := true } }
        simp only [replayEntry, hop]
        exact ⟨_, hb.1, hb.2.1, (hb.2.2 h).1, (hb.2.2 h).2, by simp, by simp [isWrite]⟩
    obtain ⟨ev4, e1, e2, e3, e4, e5, e6⟩ := hentry
    obtain ⟨evs, r1, r2, r3, r4, r5, r6⟩ := ih (replayEntry wr req ws).2 e3
    refine ⟨ev4 ++ evs, ?_, ?_, ?_, ?_, ?_, ?_⟩
    · simp only [replayEntries, e4, if_false]
      rw [r1, e1, List.append_assoc]
    · simp only [replayEntries, e4, if_false]
      rw [r2, e2]
    · simp only [replayEntries, e4, if_false]
      exact r3
    · simp only [replayEntries, e4, if_false]
      exact r4
    · intro s hmem
      rcases List.mem_append.mp hmem with h1 | h1
      · exact e5 s h1
      · exact r5 s h1
    · rw [List.filter_append, List.length_append, e6, r6, List.length_cons, Nat.add_comm]

/-- C10 as amended: in every run of `reconnect` that starts with a status other than
reconnecting and whose dial succeeds, the events are: the lock of `clientMu`, the close of
the old socket, the change of status to reconnecting, the dials and sleeps of the dial loop
(no write among them), the change of status to connected, and only then the replay, which
holds one write per recorded request and no change of status, and last the unlock. So the
status is reconnecting during the dial and connected during the whole replay and at the
end. -/
theorem reconnect_connected_before_replay (dial : Nat → DialResult) (wr : Nat → Bool)
    (visit : Registry → Registry) (ws : WsService) (c : Nat)
    (hst : ws.status ≠ status.reconnecting)
    (hd : (dialLoop dial ws.conf.MaxRetryConn).1 = DialResult.conn c) :
    (ws.reconnect dial wr visit).2.status = status.connected
      ∧ ∃ replay : List Event,
        (ws.reconnect dial wr visit).2.since ws
          = Event.clientMuLock :: ((if ws.Client.isSome = true then [Event.closeConn] else [])
            ++ Event.setStatus status.reconnecting :: ((dialLoop dial ws.conf.MaxRetryConn).2
            ++ Event.setStatus status.connected :: (replay ++ [Event.clientMuUnlock])))
        ∧ (∀ e ∈ (dialLoop dial ws.conf.MaxRetryConn).2, isWrite e = false)
        ∧ (∀ s, Event.setStatus s ∉ replay)
        ∧ ∀ reg, ws.conf.subscribeMsg = some reg →
          (replay.filter isWrite).length = (allRequests (visit reg)).length := by
  have hdial : ∀ e ∈ (dialLoop dial ws.conf.MaxRetryConn).2, isWrite e = false := by
    intro e he
    rcases dialFrom_events dial _ _ _ e he with ⟨b, hb⟩ | ⟨k, hk⟩
    · rw [hb]; rfl
    · rw [hk]; rfl
  have hdrop : ∀ (l evs : List Event), List.drop l.length (l ++ evs) = evs :=
    fun l evs => List.drop_left l evs
  cases hreg : ws.conf.subscribeMsg with
  | none =>
    refine ⟨?_, [], ?_, hdial, by simp, fun reg h => by cases h⟩
    · cases hcl : ws.Client <;>
        simp [WsService.reconnect, hst, hd, hreg, WsService.emit, hcl]
    · cases hcl : ws.Client <;>
        simp [WsService.reconnect, hst, hd, hreg, WsService.emit, hcl, WsService.since]
  | some reg =>
    have key : ∀ (tr : List Event), ∃ evs,
        (replayAll wr (visit reg)
            { ws with Client := some c, status := status.connected, trace := tr }).2.trace
          = tr ++ evs
        ∧ (replayAll wr (visit reg)
            { ws with Client := some c, status := status.connected, trace := tr }).2.status
          = status.connected
        ∧ (∀ s, Event.setStatus s ∉ evs)
        ∧ (evs.filter isWrite).length = (allRequests (visit reg)).length := by
      intro tr
      rw [replayAll_eq_replayEntries]
      obtain ⟨evs, h1, h2, _, _, h5, h6⟩ := replayEntries_effect wr (allRequests (visit reg))
        { ws with Client := some c, status := status.connected, trace := tr }
        (by simp [hreg])
      exact ⟨evs, h1, h2, h5, h6⟩
    cases hcl : ws.Client with
    | none =>
      obtain ⟨evs, h1, h2, h3, h4⟩ := key (ws.trace ++ [Event.clientMuLock]
        ++ [Event.setStatus status.reconnecting] ++ (dialLoop dial ws.conf.MaxRetryConn).2
        ++ [Event.setStatus status.connected])
      refine ⟨?_, evs, ?_, hdial, h3, fun reg1 hr => ?_⟩
      · simp only [WsService.reconnect, hst, if_false, WsService.emit, hcl, Option.isSome_none,
          Bool.false_eq_true, hd, hreg]
        exact h2
      · simp only [WsService.reconnect, hst, if_false, WsService.emit, hcl, Option.isSome_none,
          Bool.false_eq_true, hd, hreg, WsService.since, h1]
        simp
      · cases hr; exact h4
    | some c0 =>
      obtain ⟨evs, h1, h2, h3, h4⟩ := key (ws.trace ++ [Event.clientMuLock]
        ++ [Event.closeConn]
        ++ [Event.setStatus status.reconnecting] ++ (dialLoop dial ws.conf.MaxRetryConn).2
        ++ [Event.setStatus status.connected])
      refine ⟨?_, evs, ?_, hdial, h3, fun reg1 hr => ?_⟩
      · simp only [WsService.reconnect, hst, if_false, WsService.emit, hcl, Option.isSome_some,
          if_true, hd, hreg]
        exact h2
      · simp only [WsService.reconnect, hst, if_false, WsService.emit, hcl, Option.isSome_some,
          if_true, hd, hreg, WsService.since, h1]
        simp
      · cases hr; exact h4

/-- C10 refuted as stated: in the reconnect of a session with one recorded request the
status is set to connected right after the dial, and the write of the replay comes after
that change. -/
theorem reconnect_sets_connected_first :
    (subscribedSession.reconnect dialOk writesOk id).2.since subscribedSession
      = [Event.clientMuLock, Event.closeConn, Event.setStatus status.reconnecting,
          Event.dial true, Event.setStatus status.connected,
          Event.command "subscribe" ["ticker@btc_usdt"] (some { ID := "7", IsReConnect := true }),
          Event.muLock,
          Event.write
            "\x7b\"id\":\"7\",\"method\":\"subscribe\",\"params\":[\"ticker@btc_usdt\"]\x7d" true,
          Event.muUnlock, Event.clientMuUnlock] := by
  decide

theorem reconnect_connected_before_replay_witness :
    (subscribedSession.reconnect dialOk writesOk id).2.status = status.connected
      ∧ ∃ replay : List Event,
        (subscribedSession.reconnect dialOk writesOk id).2.since subscribedSession
          = Event.clientMuLock
            :: ((if subscribedSession.Client.isSome = true then [Event.closeConn] else [])
            ++ Event.setStatus status.reconnecting
              :: ((dialLoop dialOk subscribedSession.conf.MaxRetryConn).2
            ++ Event.setStatus status.connected :: (replay ++ [Event.clientMuUnlock])))
        ∧ (∀ e ∈ (dialLoop dialOk subscribedSession.conf.MaxRetryConn).2, isWrite e = false)
        ∧ (∀ s, Event.setStatus s ∉ replay)
        ∧ ∀ reg, subscribedSession.conf.subscribeMsg = some reg →
          (replay.filter isWrite).length = (allRequests (id reg)).length :=
  reconnect_connected_before_replay dialOk writesOk id subscribedSession 1 (by decide)
    (by decide)

/-! ## Further properties of the session -/

theorem recordLoop_wf (heap : List SubscribeOptions) (m : String) (op : Option Nat)
    (isRe : Bool) (hop : ∀ p, op = some p → p < heap.length) :
    ∀ (channels : List String) (reg : Registry), RegistryWF reg heap →
      RegistryWF (recordLoop m op isRe channels reg) heap := by
  intro channels
  induction channels with
  | nil => intro reg hwf; simpa [recordLoop] using hwf
  | cons c rest ih =>
    intro reg hwf
    cases hload : Load reg c with
    | some reqs =>
      cases isRe with
      | true => simpa [recordLoop, hload] using hwf
      | false =>
        simp only [recordLoop, hload, Bool.false_eq_true, if_false]
        apply ih
        intro kv hkv
        rcases mem_Store _ _ _ _ hkv with h | h
        · subst h
          intro req hr
          rcases List.mem_append.mp hr with h1 | h1
          · exact hwf _ (Load_some_mem reg c reqs hload) req h1
          · simp only [List.mem_singleton] at h1
            subst h1
            exact ⟨rfl, hop⟩
        · exact hwf kv h
    | none =>
      by_cases hc : (HasSuffix c ".ping" || HasSuffix c ".time") = true
      · simpa [recordLoop, hload, hc] using hwf
      · simp only [recordLoop, hload, hc, if_false]
        apply ih
        intro kv hkv
        rcases mem_Store _ _ _ _ hkv with h | h
        · subst h
          intro req hr
          simp only [List.mem_singleton] at hr
          subst hr
          exact ⟨rfl, hop⟩
        · exact hwf kv h

/-- The registry invariant is kept by `baseSubscribe`: on a session whose registry is well
formed (every request filed under its own channel, every options pointer live), for every
method, list of channels, live options pointer and outcome of the write, the registry
after the call is well formed. -/
theorem baseSubscribe_keeps_wf (wr : Nat → Bool) (m : String) (channels : List String)
    (op : Option Nat) (ws : WsService) (reg : Registry)
    (hreg : ws.conf.subscribeMsg = some reg) (hwf : RegistryWF reg ws.heap)
    (hop : ∀ p, op = some p → p < ws.heap.length) :
    ∃ reg1, (ws.baseSubscribe wr m channels op).2.conf.subscribeMsg = some reg1
      ∧ RegistryWF reg1 (ws.baseSubscribe wr m channels op).2.heap := by
  cases hw : wr ws.writes with
  | false =>
    exact ⟨reg, by
      simp [WsService.baseSubscribe, WsService.emit, WsService.WriteMessage, hw, hreg], by
      simpa [WsService.baseSubscribe, WsService.emit, WsService.WriteMessage, hw] using hwf⟩
  | true =>
    exact ⟨recordLoop m op (isReConnect ws.heap op) channels reg, by
      simp [WsService.baseSubscribe, WsService.emit, WsService.WriteMessage, hw, hreg], by
      simpa [WsService.baseSubscribe, WsService.emit, WsService.WriteMessage, hw, hreg]
        using recordLoop_wf ws.heap m op _ hop channels reg hwf⟩

theorem baseSubscribe_keeps_wf_witness :
    ∃ reg1, (freshSession.baseSubscribe writesOk UnSubscribe ["ticker@btc_usdt"]
        (some 0)).2.conf.subscribeMsg = some reg1
      ∧ RegistryWF reg1 (freshSession.baseSubscribe writesOk UnSubscribe ["ticker@btc_usdt"]
        (some 0)).2.heap :=
  baseSubscribe_keeps_wf writesOk UnSubscribe ["ticker@btc_usdt"] (some 0) freshSession []
    (by decide) (fun kv hkv => by simp at hkv) (fun p hp => by
      have h0 : p = 0 := by simpa using hp.symm
      subst h0
      decide)

/-- Where the code follows the recording policy: for a call that is not a replay and lists
no heartbeat channel, the loop of `baseSubscribe` records exactly what the policy of the
specification records. -/
theorem recordLoop_eq_specRecord (m : String) (op : Option Nat) :
    ∀ (channels : List String) (reg : Registry),
      (∀ c ∈ channels, isHeartbeat c = false) →
      recordLoop m op false channels reg = specRecord m op false channels reg := by
  intro channels
  induction channels with
  | nil => intro reg _; rfl
  | cons c rest ih =>
    intro reg hall
    have hc : isHeartbeat c = false := hall c (List.mem_cons_self _ _)
    have hc1 : (HasSuffix c ".ping" || HasSuffix c ".time") = false := hc
    have hrest : ∀ c1 ∈ rest, isHeartbeat c1 = false :=
      fun c1 h1 => hall c1 (List.mem_cons_of_mem _ h1)
    cases hload : Load reg c with
    | some reqs => simp [recordLoop, specRecord, hload, hc, ih _ hrest]
    | none => simp [recordLoop, specRecord, hload, hc, hc1, ih _ hrest]

theorem recordLoop_eq_specRecord_witness :
    recordLoop Subscribe none false ["ticker@btc_usdt", "depth@btc_usdt,5"] []
      = specRecord Subscribe none false ["ticker@btc_usdt", "depth@btc_usdt,5"] [] :=
  recordLoop_eq_specRecord Subscribe none ["ticker@btc_usdt", "depth@btc_usdt,5"] []
    (by decide)

/-- The heartbeat is gated by the status: a tick of `activePing` does nothing at all while
the status is not connected, and while it is connected the tick performs exactly one
write, of the frame `ping`. -/
theorem activePing_gated (wr : Nat → Bool) (ws : WsService) :
    (ws.status ≠ status.connected → ws.activePing wr = ws)
      ∧ (ws.status = status.connected →
        (ws.activePing wr).since ws = [Event.write "ping" (wr ws.writes)]) := by
  constructor
  · intro h
    simp [WsService.activePing, h]
  · intro h
    simp [WsService.activePing, h, WsService.WriteMessage, WsService.since]

theorem activePing_gated_witness :
    ({ freshSession with status := status.reconnecting } : WsService).activePing writesOk
        = { freshSession with status := status.reconnecting }
      ∧ (freshSession.activePing writesOk).since freshSession = [Event.write "ping" true] :=
  ⟨(activePing_gated writesOk { freshSession with status := status.reconnecting }).1
      (by decide),
    (activePing_gated writesOk freshSession).2 rfl⟩

/-- A reconnect requested while one is under way is a no-op: with the status reconnecting,
`reconnect` returns nil and leaves the session as it was, without dialling. -/
theorem reconnect_while_reconnecting (dial : Nat → DialResult) (wr : Nat → Bool)
    (visit : Registry → Registry) (ws : WsService) (h : ws.status = status.reconnecting) :
    ws.reconnect dial wr visit = (Res.ok, ws) := by
  simp [WsService.reconnect, h]

theorem reconnect_while_reconnecting_witness :
    ({ subscribedSession with status := status.reconnecting } : WsService).reconnect dialOk
        writesOk id
      = (Res.ok, { subscribedSession with status := status.reconnecting }) :=
  reconnect_while_reconnecting dialOk writesOk id
    { subscribedSession with status := status.reconnecting } rfl

/-- A reconnect whose dial loop gives up returns the dial error, leaves the status at
reconnecting, and touches neither the configuration (registry included), the heap nor the
socket: it makes no write. -/
theorem reconnect_dial_failed (dial : Nat → DialResult) (wr : Nat → Bool)
    (visit : Registry → Registry) (ws : WsService) (e : String)
    (hst : ws.status ≠ status.reconnecting)
    (hd : (dialLoop dial ws.conf.MaxRetryConn).1 = DialResult.failed e) :
    (ws.reconnect dial wr visit).1 = Res.err e
      ∧ (ws.reconnect dial wr visit).2.status = status.reconnecting
      ∧ (ws.reconnect dial wr visit).2.conf = ws.conf
      ∧ (ws.reconnect dial wr visit).2.heap = ws.heap
      ∧ (ws.reconnect dial wr visit).2.writes = ws.writes := by
  cases hcl : ws.Client <;> simp [WsService.reconnect, hst, hd, WsService.emit, hcl]

theorem reconnect_dial_failed_witness :
    (({ subscribedSession with conf := { subscribedSession.conf with MaxRetryConn := 2 } }
        : WsService).reconnect dialRefused writesOk id).1 = Res.err "refused"
      ∧ (({ subscribedSession with conf := { subscribedSession.conf with MaxRetryConn := 2 } }
        : WsService).reconnect dialRefused writesOk id).2.status = status.reconnecting :=
  ⟨(reconnect_dial_failed dialRefused writesOk id
      { subscribedSession with conf := { subscribedSession.conf with MaxRetryConn := 2 } }
      "refused" (by decide) (by decide)).1,
    (reconnect_dial_failed dialRefused writesOk id
      { subscribedSession with conf := { subscribedSession.conf with MaxRetryConn := 2 } }
      "refused" (by decide) (by decide)).2.1⟩

theorem Load_Store_self {β : Type} (m : List (String × β)) (k : String) (v : β) :
    Load (Store m k v) k = some v := by
  induction m with
  | nil => simp [Store, Load]
  | cons kv rest ih =>
    obtain ⟨k1, v1⟩ := kv
    by_cases hk : k1 = k
    · simp [Store, Load, hk]
    · simp [Store, Load, hk, ih]

/-- The callback table: `SetCallBack` with a nil handler changes nothing, and after
`SetCallBack(channel, call)` the handler found for the channel is `call`, whatever was
registered before (the last registration wins). -/
theorem SetCallBack_last_wins (ws : WsService) (channel : String) (call : Nat) :
    ws.SetCallBack channel none = ws
      ∧ Load (ws.SetCallBack channel (some call)).calls channel = some call := by
  exact ⟨rfl, Load_Store_self ws.calls channel call⟩

/-- The login handshake is attempted at most once per session: every `APIRequest` leaves
`loginOnce` spent, a call that finds it spent does not enter `login`, and a call that
finds it unspent enters `login` exactly once. -/
theorem APIRequest_login_once (auth : String → Bool) (wr : Nat → Bool) (channel : String)
    (keyVals : List (String × GoAny)) (ws : WsService) :
    (ws.APIRequest auth wr channel keyVals).2.loginOnce = true
      ∧ ((ws.APIRequest auth wr channel keyVals).2.since ws).count Event.loginCall
        = if ws.loginOnce = true then 0 else 1 := by
  have hdrop : ∀ (l evs : List Event), List.drop l.length (l ++ evs) = evs :=
    fun l evs => List.drop_left l evs
  cases hl : ws.loginOnce with
  | true =>
    by_cases ha : ((decide (ws.conf.Key = "") || decide (ws.conf.Secret = "")) && auth channel)
        = true
    · simp [WsService.APIRequest, hl, ha, WsService.since]
    · simp [WsService.APIRequest, hl, ha, WsService.since, WsService.apiRequest,
        WsService.readMsg, WsService.emit, WsService.WriteMessage]
  | false =>
    by_cases hk : ws.conf.Key = "" ∨ ws.conf.Secret = ""
    · simp [WsService.APIRequest, hl, WsService.login, hk, WsService.since, WsService.emit,
        newAuthEmptyErr]
    · have hb : (decide (ws.conf.Key = "") || decide (ws.conf.Secret = "")) = false := by
        simp only [not_or] at hk
        simp [hk.1, hk.2]
      cases hw : wr ws.writes with
      | false =>
        simp [WsService.APIRequest, hl, WsService.login, hk, WsService.since, WsService.emit,
          WsService.apiRequest, WsService.readMsg, WsService.WriteMessage, hw, writeErr]
      | true =>
        simp [WsService.APIRequest, hl, WsService.login, hk, WsService.since, WsService.emit,
          WsService.apiRequest, WsService.readMsg, WsService.WriteMessage, hw, hb,
          List.count_cons]

/-! ## C11: the registry of a session built from a caller's configuration -/

/-- C11, evaluated: `applyOptionConf` returns the registry field of the caller's
configuration as it got it, for every pair of configurations, so with
`&ConnConf{Key: "k", Secret: "s"}` (registry nil) `NewWsService` succeeds and yields a
session whose registry is nil. On that session `Subscribe(["ticker@btc_usdt"])` writes its
frame and then panics at the `Load`, and `reconnect` panics at the `Range` after a
successful dial. With a nil configuration, or one from `NewConnConfFromOption`, the
session has an empty registry. -/
theorem NewWsService_keeps_nil_registry :
    (∀ defaultConf userConf : ConnConf,
        (applyOptionConf defaultConf userConf).subscribeMsg = userConf.subscribeMsg)
      ∧ (NewWsService (some callerConf) [] dialOk).1 = Res.ok
      ∧ (NewWsService (some callerConf) [] dialOk).2.map (fun ws => ws.conf.subscribeMsg)
        = some none
      ∧ (NewWsService (some callerConf) [] dialOk).2.map
          (fun ws => (ws.Subscribe authChannel writesOk ["ticker@btc_usdt"]).1)
        = some Res.panicked
      ∧ (NewWsService (some callerConf) [] dialOk).2.map
          (fun ws => (ws.Subscribe authChannel writesOk ["ticker@btc_usdt"]).2.since ws)
        = some [Event.command "subscribe" ["ticker@btc_usdt"] none, Event.muLock,
            Event.write "\x7b\"method\":\"subscribe\",\"params\":[\"ticker@btc_usdt\"]\x7d" true,
            Event.muUnlock]
      ∧ (NewWsService (some callerConf) [] dialOk).2.map
          (fun ws => (ws.reconnect dialOk writesOk id).1)
        = some Res.panicked
      ∧ (NewWsService none [] dialOk).2.map (fun ws => ws.conf.subscribeMsg) = some (some [])
      ∧ (NewWsService (some (NewConnConfFromOption
          { App := "", URL := "", Key := "k", Secret := "s", MaxRetryConn := 0,
            SkipTlsVerify := false, ShowReconnectMsg := false, PingInterval := "" }))
          [] dialOk).2.map (fun ws => ws.conf.subscribeMsg) = some (some []) := by
  refine ⟨?_, by decide, by decide, by decide, by decide, by decide, by decide, by decide⟩
  intro defaultConf userConf
  simp only [applyOptionConf]
  split <;> split <;> split <;> split <;> rfl

end Xtws
